import Mathlib

/-
Verification of the tabular actor-critic trainer (rl/acm.py, rl/actor.py,
rl/core.py).  Python dicts are embedded as insertion-ordered association
lists, Python floats as rationals, and every operation that can raise a
KeyError (or another fatal error) returns an Option.  Randomness is made
explicit: the uniform draws and choice draws that the source takes from the
process-wide numpy generator are supplied as indexed streams.
-/

set_option autoImplicit false

/-- Association-list model of a Python dict.  Keys are unique in every dict
built by dset, and dset preserves insertion order. -/
abbrev Dict (K V : Type) := List (K × V)

/-- Dict lookup: the first binding of the key, none when absent (KeyError). -/
def dget {K V : Type} [DecidableEq K] : Dict K V → K → Option V
  | [], _ => none
  | (k, v) :: d, key => if key = k then some v else dget d key

/-- Python dict assignment: overwrite in place when the key is present,
append a fresh binding otherwise. -/
def dset {K V : Type} [DecidableEq K] : Dict K V → K → V → Dict K V
  | [], key, val => [(key, val)]
  | (k, v) :: d, key, val => if key = k then (k, val) :: d else (k, v) :: dset d key val

/-- Guarded insert used by add_state: bind key to v only when key is absent. -/
def dinsIfAbsent {K V : Type} [DecidableEq K] (d : Dict K V) (key : K) (v : V) : Dict K V :=
  if (dget d key).isSome then d else dset d key v

/-- Set every stored value to 0: reset_eligibilities iterates all keys and
writes 0 at each of them. -/
def dzero {K : Type} (d : Dict K ℚ) : Dict K ℚ :=
  d.map (fun kv => (kv.1, 0))

/-- Python action value: none models the sentinel None (the initial
best_action of the greedy scan), some k models an ordinary action. -/
abbrev Act := Option Nat

/-- Table-based actor of rl/acm.py: policy and eligibilities keyed on
(state, action), state_actions records the legal actions of each state. -/
structure TableBasedActor where
  policy : Dict (Nat × Act) ℚ
  eligibilities : Dict (Nat × Act) ℚ
  state_actions : Dict Nat (List Act)
  deriving DecidableEq

/-- Freshly constructed actor: all three dicts empty. -/
def TableBasedActor.empty : TableBasedActor := ⟨[], [], []⟩

/-- The loop body of add_state applied over the action list: for each action,
insert preference 0 and trace 0 when the pair is not yet a key. -/
def addKeys (s : Nat) (acts : List Act) (d : Dict (Nat × Act) ℚ) : Dict (Nat × Act) ℚ :=
  acts.foldl (fun d x => dinsIfAbsent d (s, x) 0) d

/-- add_state of rl/acm.py: unconditionally record the action list for the
state, then walk the actions inserting missing policy and trace entries. -/
def TableBasedActor.add_state (a : TableBasedActor) (s : Nat) (acts : List Act) :
    TableBasedActor :=
  let pe := acts.foldl
    (fun pe x => (dinsIfAbsent pe.1 (s, x) 0, dinsIfAbsent pe.2 (s, x) 0))
    (a.policy, a.eligibilities)
  { policy := pe.1, eligibilities := pe.2, state_actions := dset a.state_actions s acts }

/-- reset_eligibilities: every known trace entry is set to 0. -/
def TableBasedActor.reset_eligibilities (a : TableBasedActor) : TableBasedActor :=
  { a with eligibilities := dzero a.eligibilities }

/-- The greedy scan of propose_action: best is the running best_action (None
initially), maxv the running max_value with none standing for minus infinity;
each step reads policy[(s, x)] (KeyError modelled as none) and divides it by
the branching factor n. -/
def greedyLoop (pol : Dict (Nat × Act) ℚ) (s : Nat) (n : Nat) :
    List Act → Act → Option ℚ → Option Act
  | [], best, _ => some best
  | x :: l, best, maxv =>
    match dget pol (s, x) with
    | none => none
    | some p =>
      let v := p / (n : ℚ)
      match maxv with
      | none => greedyLoop pol s n l x (some v)
      | some m => if m < v then greedyLoop pol s n l x (some v)
                  else greedyLoop pol s n l best maxv

/-- propose_action of rl/acm.py.  The draw np.random.choice([0,1], p=[1-e,e])
is modelled by a uniform sample u: the exploring branch is taken exactly when
u < epsilon.  Exploring picks the action at index ridx modulo the length
(np.random.choice over the action array; an empty array is a fatal error,
modelled as none).  Otherwise the greedy left-to-right scan runs. -/
def TableBasedActor.propose_action (a : TableBasedActor) (s : Nat) (epsilon u : ℚ)
    (ridx : Nat) : Option Act :=
  match dget a.state_actions s with
  | none => none
  | some acts =>
    if u < epsilon then
      acts.get? (ridx % acts.length)
    else
      greedyLoop a.policy s acts.length acts none none

/-- update_policy: policy[(s, act)] += lr * td * eligibilities[(s, act)],
a KeyError on either read is fatal. -/
def TableBasedActor.update_policy (a : TableBasedActor) (s : Nat) (act : Act)
    (lr td : ℚ) : Option TableBasedActor :=
  match dget a.policy (s, act), dget a.eligibilities (s, act) with
  | some p, some e => some { a with policy := dset a.policy (s, act) (p + lr * td * e) }
  | _, _ => none

/-- update_eligibilities: eligibilities[(s, act)] *= discount_rate * decay_factor. -/
def TableBasedActor.update_eligibilities (a : TableBasedActor) (s : Nat) (act : Act)
    (discount_rate decay_factor : ℚ) : Option TableBasedActor :=
  match dget a.eligibilities (s, act) with
  | some e =>
    some { a with eligibilities := dset a.eligibilities (s, act) (e * (discount_rate * decay_factor)) }
  | none => none

/-- Table-based critic of rl/acm.py: state values and eligibilities keyed on
the state alone. -/
structure TableBasedCritic where
  state_values : Dict Nat ℚ
  eligibilities : Dict Nat ℚ
  deriving DecidableEq

/-- Freshly constructed critic: both dicts empty. -/
def TableBasedCritic.empty : TableBasedCritic := ⟨[], []⟩

/-- add_state of the critic: when the state is unseen its value is set to the
uniform draw supplied by the random source (np.random.uniform, a value in
[0,1)), and its trace to 0; both inserts are guarded separately. -/
def TableBasedCritic.add_state (c : TableBasedCritic) (s : Nat) (draw : ℚ) :
    TableBasedCritic :=
  { state_values := dinsIfAbsent c.state_values s draw
    eligibilities := dinsIfAbsent c.eligibilities s 0 }

/-- reset_eligibilities of the critic: all traces to 0. -/
def TableBasedCritic.reset_eligibilities (c : TableBasedCritic) : TableBasedCritic :=
  { c with eligibilities := dzero c.eligibilities }

/-- compute_td_error: reinforcement + discount_rate * value(successor) -
value(current).  The method only reads the tables; the critic component of
the result is the receiver itself, recording that the call leaves both
tables unchanged. -/
def TableBasedCritic.compute_td_error (c : TableBasedCritic) (cur suc : Nat)
    (reinforcement discount_rate : ℚ) : Option (ℚ × TableBasedCritic) :=
  match dget c.state_values suc, dget c.state_values cur with
  | some v2, some v1 => some (reinforcement + discount_rate * v2 - v1, c)
  | _, _ => none

/-- update_value_function: state_values[s] += lr * td * eligibilities[s]. -/
def TableBasedCritic.update_value_function (c : TableBasedCritic) (s : Nat)
    (lr td : ℚ) : Option TableBasedCritic :=
  match dget c.state_values s, dget c.eligibilities s with
  | some v, some e => some { c with state_values := dset c.state_values s (v + lr * td * e) }
  | _, _ => none

/-- update_eligibilities of the critic: eligibilities[s] *= discount_rate * decay_factor. -/
def TableBasedCritic.update_eligibilities (c : TableBasedCritic) (s : Nat)
    (discount_rate decay_factor : ℚ) : Option TableBasedCritic :=
  match dget c.eligibilities s with
  | some e =>
    some { c with eligibilities := dset c.eligibilities s (e * (discount_rate * decay_factor)) }
  | none => none

/-- num_seen_states: size of the value table. -/
def TableBasedCritic.num_seen_states (c : TableBasedCritic) : Nat :=
  c.state_values.length

/-- Actor variant of rl/actor.py: hyperparameters are stored at construction
and states are keyed by a hash of their tuple representation; the hash
function is a parameter of the embedding. -/
structure ActorPy where
  policy : Dict (Nat × Act) ℚ
  eligibilities : Dict (Nat × Act) ℚ
  state_actions : Dict Nat (List Act)
  learning_rate : ℚ
  epsilon : ℚ
  deriving DecidableEq

/-- propose_action of rl/actor.py: identical scan to the rl/acm.py variant,
but the exploration probability is the stored self.epsilon and the state is
first mapped to its hash id. -/
def ActorPy.propose_action (h : List Nat → Nat) (a : ActorPy) (state : List Nat)
    (u : ℚ) (ridx : Nat) : Option Act :=
  let sid := h state
  match dget a.state_actions sid with
  | none => none
  | some acts =>
    if u < a.epsilon then
      acts.get? (ridx % acts.length)
    else
      greedyLoop a.policy sid acts.length acts none none

/-- Result of one domain transition: successor state, its legal actions and
the scalar reward of the transition. -/
structure DomStep where
  state : Nat
  actions : List Act
  reward : ℚ
  deriving DecidableEq

/-- External domain interface, with its own internal state threaded
explicitly (the Python methods are side-effecting). -/
structure Domain (σ : Type) where
  produce_initial_state : σ → (Nat × List Act) × σ
  generate_child_state : σ → Act → DomStep × σ
  is_current_state_terminal : σ → Bool

/-- Explicit random source: stream of uniform draws in [0,1) and stream of
index draws for uniform choice from a list. -/
structure Rng where
  uniform : Nat → ℚ
  choice : Nat → Nat

/-- Configuration fields of the ACM orchestrator (the table-based critic is
the variant exercised here; the parametric critic is unimplemented). -/
structure ACM where
  max_episodes : Nat
  steps : Nat
  actor_lr : ℚ
  critic_lr : ℚ
  decay_factor : ℚ
  discount_rate : ℚ
  epsilon : ℚ
  epsilon_decay : ℚ

/-- Mutable state of a training run: the two components, the orchestrator's
current epsilon, the domain's internal state, and the positions reached in
the two random streams. -/
structure FitState (σ : Type) where
  actor : TableBasedActor
  critic : TableBasedCritic
  epsilon : ℚ
  dom : σ
  uctr : Nat
  cctr : Nat

/-- critic.add_state as called from fit: a uniform draw is consumed exactly
when the state is unseen. -/
def criticAddRng (c : TableBasedCritic) (s : Nat) (rng : Rng) (uctr : Nat) :
    TableBasedCritic × Nat :=
  if (dget c.state_values s).isSome then (c.add_state s 0, uctr)
  else (c.add_state s (rng.uniform uctr), uctr + 1)

/-- actor.propose_action as called from fit: one uniform draw decides
exploration, one choice draw is consumed only when exploring. -/
def proposeWithRng (a : TableBasedActor) (s : Nat) (epsilon : ℚ) (rng : Rng)
    (uctr cctr : Nat) : Option (Act × Nat × Nat) :=
  let u := rng.uniform uctr
  match a.propose_action s epsilon u (rng.choice cctr) with
  | none => none
  | some act => some (act, uctr + 1, if u < epsilon then cctr + 1 else cctr)

/-- Direct trace mutation in fit: actor.eligibilities[(cs, ca)] = 1. -/
def markActor (a : TableBasedActor) (cs : Nat) (ca : Act) : TableBasedActor :=
  { a with eligibilities := dset a.eligibilities (cs, ca) 1 }

/-- Direct trace mutation in fit: critic.eligibilities[cs] = 1. -/
def markCritic (c : TableBasedCritic) (cs : Nat) : TableBasedCritic :=
  { c with eligibilities := dset c.eligibilities cs 1 }

/-- The for-loop of fit over the recorded episode, in source order per
entry: critic value update, critic trace decay, actor preference update,
actor trace decay; both components are threaded through the loop and a
KeyError aborts. -/
def sweep (discount_rate decay_factor actor_lr critic_lr td : ℚ) :
    List (Nat × Act) → TableBasedActor × TableBasedCritic →
    Option (TableBasedActor × TableBasedCritic)
  | [], ac => some ac
  | (s, act) :: rest, ac =>
    match ac.2.update_value_function s critic_lr td with
    | none => none
    | some c1 =>
      match c1.update_eligibilities s discount_rate decay_factor with
      | none => none
      | some c2 =>
        match ac.1.update_policy s act actor_lr td with
        | none => none
        | some a1 =>
          match a1.update_eligibilities s act discount_rate decay_factor with
          | none => none
          | some a2 => sweep discount_rate decay_factor actor_lr critic_lr td rest (a2, c2)

/-- Spec-side description of one credit-assignment entry, written from the
spec sentence: update the Critic's value at state and decay its trace, then
update the Actor's preference at (state, action) and decay its trace, each
operation reading the tables left by the previous one. -/
def sweepEntrySpec (discount_rate decay_factor actor_lr critic_lr td : ℚ)
    (e : Nat × Act) (ac : TableBasedActor × TableBasedCritic) :
    Option (TableBasedActor × TableBasedCritic) :=
  (ac.2.update_value_function e.1 critic_lr td).bind fun c1 =>
  (c1.update_eligibilities e.1 discount_rate decay_factor).bind fun c2 =>
  (ac.1.update_policy e.1 e.2 actor_lr td).bind fun a1 =>
  (a1.update_eligibilities e.1 e.2 discount_rate decay_factor).map fun a2 => (a2, c2)

/-- Spec-side description of the whole credit-assignment sweep: the episode
history is traversed in recorded (oldest-first) order, each entry reading the
state already mutated by the earlier entries of the same sweep. -/
def sweepSpec (discount_rate decay_factor actor_lr critic_lr td : ℚ) :
    List (Nat × Act) → TableBasedActor × TableBasedCritic →
    Option (TableBasedActor × TableBasedCritic)
  | [], ac => some ac
  | e :: rest, ac =>
    (sweepEntrySpec discount_rate decay_factor actor_lr critic_lr td e ac).bind
      (sweepSpec discount_rate decay_factor actor_lr critic_lr td rest)

/-- One iteration of the while-loop of fit, in source order: append the
current pair to the episode, generate the child state, register it with
actor and critic, propose the successor action, mark the actor trace of the
pair just taken, compute the TD error, mark the critic trace, then run the
credit-assignment sweep over the full episode; finally advance the current
state and action. -/
def ACM.fitStep {σ : Type} (cfg : ACM) (d : Domain σ) (rng : Rng) (st : FitState σ)
    (ep : List (Nat × Act)) (cs : Nat) (ca : Act) :
    Option (FitState σ × List (Nat × Act) × Nat × Act) :=
  let ep2 := ep ++ [(cs, ca)]
  let child := d.generate_child_state st.dom ca
  let actor1 := st.actor.add_state child.1.state child.1.actions
  let cr := criticAddRng st.critic child.1.state rng st.uctr
  match proposeWithRng actor1 child.1.state st.epsilon rng cr.2 st.cctr with
  | none => none
  | some pr =>
    let actor2 := markActor actor1 cs ca
    match cr.1.compute_td_error cs child.1.state child.1.reward cfg.discount_rate with
    | none => none
    | some tdc =>
      let critic2 := markCritic tdc.2 cs
      match sweep cfg.discount_rate cfg.decay_factor cfg.actor_lr cfg.critic_lr tdc.1
          ep2 (actor2, critic2) with
      | none => none
      | some ac =>
        some ({ actor := ac.1, critic := ac.2, epsilon := st.epsilon, dom := child.2,
                uctr := pr.2.1, cctr := pr.2.2 }, ep2, child.1.state, pr.1)

/-- The while-loop of fit: runs while the remaining step budget is positive
and the domain reports a non-terminal current state. -/
def ACM.runSteps {σ : Type} (cfg : ACM) (d : Domain σ) (rng : Rng) :
    Nat → FitState σ → List (Nat × Act) → Nat → Act → Option (FitState σ)
  | 0, st, _, _, _ => some st
  | n + 1, st, ep, cs, ca =>
    if d.is_current_state_terminal st.dom then some st
    else
      match cfg.fitStep d rng st ep cs ca with
      | none => none
      | some r => ACM.runSteps cfg d rng n r.1 r.2.1 r.2.2.1 r.2.2.2

/-- One episode of fit: reset both components' traces, query the domain for
the initial state, register it, propose the initial action, run the step
loop on an empty episode history, and finally multiply epsilon by
epsilon_decay (this happens regardless of how the step loop exited). -/
def ACM.runEpisode {σ : Type} (cfg : ACM) (d : Domain σ) (rng : Rng)
    (st : FitState σ) : Option (FitState σ) :=
  let actor0 := st.actor.reset_eligibilities
  let critic0 := st.critic.reset_eligibilities
  let init := d.produce_initial_state st.dom
  let actor1 := actor0.add_state init.1.1 init.1.2
  let cr := criticAddRng critic0 init.1.1 rng st.uctr
  match proposeWithRng actor1 init.1.1 st.epsilon rng cr.2 st.cctr with
  | none => none
  | some pr =>
    match ACM.runSteps cfg d rng cfg.steps
        { actor := actor1, critic := cr.1, epsilon := st.epsilon, dom := init.2,
          uctr := pr.2.1, cctr := pr.2.2 } [] init.1.1 pr.1 with
    | none => none
    | some st2 => some { st2 with epsilon := st2.epsilon * cfg.epsilon_decay }

/-- The episode loop of fit. -/
def ACM.runEpisodes {σ : Type} (cfg : ACM) (d : Domain σ) (rng : Rng) :
    Nat → FitState σ → Option (FitState σ)
  | 0, st => some st
  | n + 1, st =>
    match cfg.runEpisode d rng st with
    | none => none
    | some st2 => ACM.runEpisodes cfg d rng n st2

/-- fit of rl/acm.py with the table-based critic: a freshly constructed
actor and critic, epsilon at its configured starting value, then the episode
loop. -/
def ACM.fit {σ : Type} (cfg : ACM) (d : Domain σ) (rng : Rng) (s0 : σ) :
    Option (FitState σ) :=
  cfg.runEpisodes d rng cfg.max_episodes
    { actor := TableBasedActor.empty, critic := TableBasedCritic.empty,
      epsilon := cfg.epsilon, dom := s0, uctr := 0, cctr := 0 }

/-- Domain contract assumed by the training loop (spec: a Domain returning
an empty action list for a non-terminal state is a contract violation):
every emitted legal-action list is non-empty. -/
def Domain.WellBehaved {σ : Type} (d : Domain σ) : Prop :=
  (∀ s, (d.produce_initial_state s).1.2 ≠ []) ∧
  (∀ s a, (d.generate_child_state s a).1.actions ≠ [])

/-- Invariant of claim C5: a key present in a trace table is present in the
corresponding value/policy table and vice versa, for both components. -/
def KeysAligned {σ : Type} (st : FitState σ) : Prop :=
  (∀ k, (dget st.actor.policy k).isSome ↔ (dget st.actor.eligibilities k).isSome) ∧
  (∀ s, (dget st.critic.state_values s).isSome ↔ (dget st.critic.eligibilities s).isSome)

/-- Invariant carried through the step loop: key alignment plus registration
of every recorded episode entry and of the current state-action pair. -/
def StepInv {σ : Type} (st : FitState σ) (ep : List (Nat × Act)) (cs : Nat) (ca : Act) : Prop :=
  KeysAligned st ∧
  (∀ e ∈ ep, (dget st.actor.policy e).isSome ∧ (dget st.critic.state_values e.1).isSome) ∧
  (dget st.actor.policy (cs, ca)).isSome ∧
  (dget st.critic.state_values cs).isSome

/-- A Python method call site: called method name, number of positional
arguments and keyword-argument names (the receiver self excluded). -/
structure CallSite where
  method : String
  npos : Nat
  kw : List String
  deriving DecidableEq

/-- Python argument binding for a parameter list without defaults: the
positional arguments bind the leading parameters, every keyword argument
must name one of the remaining parameters, and every remaining parameter
must be supplied by a keyword argument. -/
def pyBindsOk (params : List String) (npos : Nat) (kw : List String) : Bool :=
  decide (npos ≤ params.length) &&
  kw.all (fun k => (params.drop npos).contains k) &&
  (params.drop npos).all (fun p => kw.contains p)

/-- Method signatures of the TableBasedActor defined inside rl/acm.py
(self excluded; init stands for the constructor). -/
def acmActorParams : String → Option (List String)
  | "init" => some []
  | "add_state" => some ["state", "actions"]
  | "reset_eligibilities" => some []
  | "propose_action" => some ["state", "epsilon"]
  | "update_policy" => some ["state", "action", "learning_rate", "td_error"]
  | "update_eligibilities" => some ["state", "action", "discount_rate", "decay_factor"]
  | _ => none

/-- Method signatures of the TableBasedActor defined in rl/actor.py: the
constructor takes learning_rate and epsilon, propose_action takes only the
state, and update_policy has no learning_rate parameter. -/
def rlActorParams : String → Option (List String)
  | "init" => some ["learning_rate", "epsilon"]
  | "add_state" => some ["state", "actions"]
  | "reset_eligibilities" => some []
  | "increase_eligibility" => some ["state", "action"]
  | "propose_action" => some ["state"]
  | "update_policy" => some ["state", "action", "td_error"]
  | "update_eligibilities" => some ["state", "action", "discount_rate", "decay_factor"]
  | _ => none

/-- Whether an actor implementation accepts a call site. -/
def callAccepted (sig : String → Option (List String)) (c : CallSite) : Bool :=
  match sig c.method with
  | none => false
  | some ps => pyBindsOk ps c.npos c.kw

/-- The actor calls made by ACM.fit in rl/acm.py, in order of appearance
(lines 30, 44, 49, 51, 68, 72, 89 and 90). -/
def acmFitActorCalls : List CallSite :=
  [⟨"init", 0, []⟩,
   ⟨"reset_eligibilities", 0, []⟩,
   ⟨"add_state", 2, []⟩,
   ⟨"propose_action", 2, []⟩,
   ⟨"add_state", 2, []⟩,
   ⟨"propose_action", 0, ["state", "epsilon"]⟩,
   ⟨"update_policy", 0, ["state", "action", "learning_rate", "td_error"]⟩,
   ⟨"update_eligibilities", 0, ["state", "action", "discount_rate", "decay_factor"]⟩]

/-- The actor calls made by ACM.fit in rl/core.py, in order of appearance
(lines 29, 43, 48, 50, 67, 71, 88 and 89). -/
def coreFitActorCalls : List CallSite :=
  [⟨"init", 0, []⟩,
   ⟨"reset_eligibilities", 0, []⟩,
   ⟨"add_state", 2, []⟩,
   ⟨"propose_action", 2, []⟩,
   ⟨"add_state", 2, []⟩,
   ⟨"propose_action", 0, ["state", "epsilon"]⟩,
   ⟨"update_policy", 0, ["state", "action", "learning_rate", "td_error"]⟩,
   ⟨"update_eligibilities", 0, ["state", "action", "discount_rate", "decay_factor"]⟩]

/-- One-state domain used for concrete instantiations: state 0, one legal
action, zero reward, immediately terminal. -/
def domW : Domain Unit :=
  { produce_initial_state := fun _ => ((0, [some 0]), ())
    generate_child_state := fun _ _ => (⟨0, [some 0], 0⟩, ())
    is_current_state_terminal := fun _ => true }

/-- Deterministic random source used for concrete instantiations: all
uniform draws are 0, all choice draws are 0. -/
def rngW : Rng := ⟨fun _ => 0, fun _ => 0⟩

/-- Small configuration used for concrete instantiations. -/
def cfgW : ACM :=
  { max_episodes := 2, steps := 1, actor_lr := 1, critic_lr := 1,
    decay_factor := 1/2, discount_rate := 1/2, epsilon := 1/2, epsilon_decay := 1/2 }

/-- A mid-episode training state used for concrete instantiations: state 0
registered in both components with the single action some 0. -/
def stW : FitState Unit :=
  { actor := ⟨[((0, some 0), 0)], [((0, some 0), 0)], [(0, [some 0])]⟩
    critic := ⟨[(0, 0)], [(0, 0)]⟩
    epsilon := 0
    dom := ()
    uctr := 0
    cctr := 0 }

/-! Basic lemmas about the dict model. -/

theorem dget_dset_self {K V : Type} [DecidableEq K] (d : Dict K V) (k : K) (v : V) :
    dget (dset d k v) k = some v := by
  induction d with
  | nil => simp [dget, dset]
  | cons kv d ih =>
    by_cases h : k = kv.1
    · simp [dget, dset, h]
    · simp [dget, dset, h, ih]

theorem dget_dset_ne {K V : Type} [DecidableEq K] (d : Dict K V) (k k' : K) (v : V)
    (h : k' ≠ k) : dget (dset d k v) k' = dget d k' := by
  induction d with
  | nil => simp [dget, dset, h]
  | cons kv d ih =>
    by_cases hk : k = kv.1
    · subst hk
      simp [dget, dset, h]
    · by_cases hk' : k' = kv.1
      · simp [dget, dset, hk, hk']
      · simp [dget, dset, hk, hk', ih]

theorem isSome_dget_dset {K V : Type} [DecidableEq K] (d : Dict K V) (k k' : K) (v : V) :
    (dget (dset d k v) k').isSome ↔ (k' = k ∨ (dget d k').isSome) := by
  by_cases h : k' = k
  · subst h; simp [dget_dset_self]
  · simp [dget_dset_ne d k k' v h, h]

theorem dget_dzero {K : Type} [DecidableEq K] (d : Dict K ℚ) (k : K) :
    dget (dzero d) k = (dget d k).map (fun _ => 0) := by
  induction d with
  | nil => simp [dget, dzero]
  | cons kv d ih =>
    by_cases h : k = kv.1
    · simp [dget, dzero, h]
    · simp [dget, dzero, h] at ih ⊢
      exact ih

theorem dinsIfAbsent_of_isSome {K V : Type} [DecidableEq K] (d : Dict K V) (k : K) (v : V)
    (h : (dget d k).isSome) : dinsIfAbsent d k v = d := by
  simp [dinsIfAbsent, h]

theorem dinsIfAbsent_of_none {K V : Type} [DecidableEq K] (d : Dict K V) (k : K) (v : V)
    (h : dget d k = none) : dinsIfAbsent d k v = dset d k v := by
  simp [dinsIfAbsent, h]

theorem dget_dinsIfAbsent_of_isSome {K V : Type} [DecidableEq K] (d : Dict K V)
    (k k' : K) (v : V) (h : (dget d k').isSome) :
    dget (dinsIfAbsent d k v) k' = dget d k' := by
  by_cases hk : (dget d k).isSome
  · rw [dinsIfAbsent_of_isSome d k v hk]
  · rw [Option.not_isSome_iff_eq_none] at hk
    rw [dinsIfAbsent_of_none d k v hk]
    rcases eq_or_ne k' k with rfl | hne
    · rw [hk] at h; simp at h
    · exact dget_dset_ne d k k' v hne

theorem isSome_dget_dinsIfAbsent_self {K V : Type} [DecidableEq K] (d : Dict K V)
    (k : K) (v : V) : (dget (dinsIfAbsent d k v) k).isSome := by
  by_cases hk : (dget d k).isSome
  · rw [dinsIfAbsent_of_isSome d k v hk]; exact hk
  · rw [Option.not_isSome_iff_eq_none] at hk
    rw [dinsIfAbsent_of_none d k v hk, dget_dset_self]
    rfl

theorem isSome_dget_dinsIfAbsent_iff {K V : Type} [DecidableEq K] (d : Dict K V)
    (k k' : K) (v : V) :
    (dget (dinsIfAbsent d k v) k').isSome ↔ (k' = k ∨ (dget d k').isSome) := by
  by_cases hk : (dget d k).isSome
  · rw [dinsIfAbsent_of_isSome d k v hk]
    constructor
    · exact Or.inr
    · rintro (rfl | h)
      · exact hk
      · exact h
  · rw [Option.not_isSome_iff_eq_none] at hk
    rw [dinsIfAbsent_of_none d k v hk]
    exact isSome_dget_dset d k k' v

/-! Lemmas about the key-registration fold of add_state. -/

theorem addFold_eq (s : Nat) (acts : List Act) (p e : Dict (Nat × Act) ℚ) :
    acts.foldl (fun pe x => (dinsIfAbsent pe.1 (s, x) 0, dinsIfAbsent pe.2 (s, x) 0)) (p, e)
      = (addKeys s acts p, addKeys s acts e) := by
  induction acts generalizing p e with
  | nil => rfl
  | cons x l ih =>
    simp only [addKeys, List.foldl] at *
    exact ih _ _

theorem add_state_eq (a : TableBasedActor) (s : Nat) (acts : List Act) :
    a.add_state s acts = { policy := addKeys s acts a.policy,
                           eligibilities := addKeys s acts a.eligibilities,
                           state_actions := dset a.state_actions s acts } := by
  simp [TableBasedActor.add_state, addFold_eq]

theorem addKeys_nil (s : Nat) (d : Dict (Nat × Act) ℚ) : addKeys s [] d = d := rfl

theorem addKeys_cons (s : Nat) (x : Act) (l : List Act) (d : Dict (Nat × Act) ℚ) :
    addKeys s (x :: l) d = addKeys s l (dinsIfAbsent d (s, x) 0) := rfl

theorem dget_addKeys_of_isSome (s : Nat) (acts : List Act) (d : Dict (Nat × Act) ℚ)
    (k : Nat × Act) (h : (dget d k).isSome) : dget (addKeys s acts d) k = dget d k := by
  induction acts generalizing d with
  | nil => rfl
  | cons x l ih =>
    rw [addKeys_cons,
        ih (dinsIfAbsent d (s, x) 0)
          (by rw [dget_dinsIfAbsent_of_isSome d (s, x) k 0 h]; exact h)]
    exact dget_dinsIfAbsent_of_isSome d (s, x) k 0 h

theorem isSome_dget_addKeys_mono (s : Nat) (acts : List Act) (d : Dict (Nat × Act) ℚ)
    (k : Nat × Act) (h : (dget d k).isSome) : (dget (addKeys s acts d) k).isSome := by
  rw [dget_addKeys_of_isSome s acts d k h]; exact h

theorem isSome_dget_addKeys_mem (s : Nat) (acts : List Act) (x : Act) (hx : x ∈ acts) :
    ∀ d : Dict (Nat × Act) ℚ, (dget (addKeys s acts d) (s, x)).isSome := by
  induction acts with
  | nil => cases hx
  | cons y l ih =>
    intro d
    rw [addKeys_cons]
    rcases List.mem_cons.mp hx with rfl | hmem
    · exact isSome_dget_addKeys_mono s l _ (s, x)
        (isSome_dget_dinsIfAbsent_self d (s, x) 0)
    · exact ih hmem _

theorem isSome_dget_addKeys_iff (s : Nat) (acts : List Act) (d : Dict (Nat × Act) ℚ)
    (k : Nat × Act) :
    (dget (addKeys s acts d) k).isSome ↔ ((dget d k).isSome ∨ (k.1 = s ∧ k.2 ∈ acts)) := by
  induction acts generalizing d with
  | nil => simp [addKeys]
  | cons y l ih =>
    rw [addKeys_cons, ih]
    rw [isSome_dget_dinsIfAbsent_iff]
    constructor
    · rintro ((rfl | h) | ⟨h1, h2⟩)
      · exact Or.inr ⟨rfl, List.mem_cons_self y l⟩
      · exact Or.inl h
      · exact Or.inr ⟨h1, List.mem_cons_of_mem y h2⟩
    · rintro (h | ⟨h1, h2⟩)
      · exact Or.inl (Or.inr h)
      · rcases List.mem_cons.mp h2 with rfl | hmem
        · obtain ⟨k1, k2⟩ := k
          simp only at h1
          subst h1
          exact Or.inl (Or.inl rfl)
        · exact Or.inr ⟨h1, hmem⟩

theorem dget_addKeys_new (s : Nat) (acts : List Act) (d : Dict (Nat × Act) ℚ)
    (x : Act) (hx : x ∈ acts) (h : dget d (s, x) = none) :
    dget (addKeys s acts d) (s, x) = some 0 := by
  induction acts generalizing d with
  | nil => cases hx
  | cons y l ih =>
    rw [addKeys_cons]
    rcases eq_or_ne x y with rfl | hne
    · have hnew : dget (dinsIfAbsent d (s, x) 0) (s, x) = some 0 := by
        rw [dinsIfAbsent_of_none d (s, x) 0 h, dget_dset_self]
      rw [dget_addKeys_of_isSome s l _ (s, x) (by rw [hnew]; rfl), hnew]
    · rcases List.mem_cons.mp hx with h' | hmem
      · exact absurd h' hne
      · refine ih _ hmem ?_
        by_cases hy : (dget d (s, y)).isSome
        · rw [dinsIfAbsent_of_isSome d (s, y) 0 hy]; exact h
        · rw [Option.not_isSome_iff_eq_none] at hy
          rw [dinsIfAbsent_of_none d (s, y) 0 hy]
          rw [dget_dset_ne d (s, y) (s, x) 0 (by simp [hne])]
          exact h

/-! Claim C1: the TD-error formula. -/

/-- Claim C1: for every pair of registered states with values v1 (current)
and v2 (successor), every reward r and discount rate g, compute_td_error
returns exactly r + g * v2 - v1, and it leaves the value table and the
trace table unchanged (the critic component of the result is the unmodified
receiver). -/
theorem td_error_formula (c : TableBasedCritic) (cur suc : Nat) (r g v1 v2 : ℚ)
    (h1 : dget c.state_values cur = some v1) (h2 : dget c.state_values suc = some v2) :
    c.compute_td_error cur suc r g = some (r + g * v2 - v1, c) := by
  simp [TableBasedCritic.compute_td_error, h1, h2]

/-- Witness for C1 at a concrete critic with two registered states. -/
theorem td_error_formula_witness :
    (⟨[(0, 1/2), (1, 1/4)], [(0, 0), (1, 0)]⟩ : TableBasedCritic).compute_td_error 0 1 3 (1/2)
      = some (3 + (1/2) * (1/4) - 1/2, ⟨[(0, 1/2), (1, 1/4)], [(0, 0), (1, 0)]⟩) :=
  td_error_formula ⟨[(0, 1/2), (1, 1/4)], [(0, 0), (1, 0)]⟩ 0 1 3 (1/2) (1/2) (1/4)
    rfl rfl

/-! Claim C4: idempotent registration. -/

/-- Claim C4: add_state is idempotent for both components.  A registration
never changes an existing preference, value, or trace entry for a key
already present; it creates entries only for genuinely new keys, with
preference 0 and trace 0 in the actor, and with the supplied uniform draw
(a value in [0,1) under the random-source contract) and trace 0 in the
critic. -/
theorem add_state_idempotent :
    (∀ (a : TableBasedActor) (s : Nat) (acts : List Act) (k : Nat × Act) (v : ℚ),
      dget a.policy k = some v → dget (a.add_state s acts).policy k = some v) ∧
    (∀ (a : TableBasedActor) (s : Nat) (acts : List Act) (k : Nat × Act) (v : ℚ),
      dget a.eligibilities k = some v → dget (a.add_state s acts).eligibilities k = some v) ∧
    (∀ (a : TableBasedActor) (s : Nat) (acts : List Act) (x : Act), x ∈ acts →
      dget a.policy (s, x) = none → dget (a.add_state s acts).policy (s, x) = some 0) ∧
    (∀ (a : TableBasedActor) (s : Nat) (acts : List Act) (x : Act), x ∈ acts →
      dget a.eligibilities (s, x) = none →
      dget (a.add_state s acts).eligibilities (s, x) = some 0) ∧
    (∀ (c : TableBasedCritic) (s : Nat) (u : ℚ) (k : Nat) (v : ℚ),
      dget c.state_values k = some v → dget (c.add_state s u).state_values k = some v) ∧
    (∀ (c : TableBasedCritic) (s : Nat) (u : ℚ) (k : Nat) (v : ℚ),
      dget c.eligibilities k = some v → dget (c.add_state s u).eligibilities k = some v) ∧
    (∀ (c : TableBasedCritic) (s : Nat) (u : ℚ), 0 ≤ u → u < 1 →
      dget c.state_values s = none →
      dget (c.add_state s u).state_values s = some u ∧ 0 ≤ u ∧ u < 1) ∧
    (∀ (c : TableBasedCritic) (s : Nat) (u : ℚ),
      dget c.eligibilities s = none → dget (c.add_state s u).eligibilities s = some 0) := by
  refine ⟨?_, ?_, ?_, ?_, ?_, ?_, ?_, ?_⟩
  · intro a s acts k v h
    rw [add_state_eq]
    simpa [dget_addKeys_of_isSome s acts a.policy k (by rw [h]; rfl)] using h
  · intro a s acts k v h
    rw [add_state_eq]
    simpa [dget_addKeys_of_isSome s acts a.eligibilities k (by rw [h]; rfl)] using h
  · intro a s acts x hx h
    rw [add_state_eq]
    exact dget_addKeys_new s acts a.policy x hx h
  · intro a s acts x hx h
    rw [add_state_eq]
    exact dget_addKeys_new s acts a.eligibilities x hx h
  · intro c s u k v h
    exact (dget_dinsIfAbsent_of_isSome c.state_values s k u (by rw [h]; rfl)).trans h
  · intro c s u k v h
    exact (dget_dinsIfAbsent_of_isSome c.eligibilities s k 0 (by rw [h]; rfl)).trans h
  · intro c s u h0 h1 h
    refine ⟨?_, h0, h1⟩
    show dget (dinsIfAbsent c.state_values s u) s = some u
    rw [dinsIfAbsent_of_none c.state_values s u h, dget_dset_self]
  · intro c s u h
    show dget (dinsIfAbsent c.eligibilities s 0) s = some 0
    rw [dinsIfAbsent_of_none c.eligibilities s 0 h, dget_dset_self]

/-- Witness for C4: a second registration of state 0 keeps the existing
preference 5 and trace 7, adds the new action with preference 0, and the
critic keeps its stored value while gaining the missing trace entry. -/
theorem add_state_idempotent_witness :
    dget ((⟨[((0, some 0), 5)], [((0, some 0), 7)], [(0, [some 0])]⟩ :
        TableBasedActor).add_state 0 [some 0, some 1]).policy (0, some 0) = some 5 ∧
    dget ((⟨[((0, some 0), 5)], [((0, some 0), 7)], [(0, [some 0])]⟩ :
        TableBasedActor).add_state 0 [some 0, some 1]).policy (0, some 1) = some 0 ∧
    dget ((⟨[(3, 1/2)], []⟩ : TableBasedCritic).add_state 3 (2/3)).state_values 3 = some (1/2) ∧
    dget ((⟨[(3, 1/2)], []⟩ : TableBasedCritic).add_state 3 (2/3)).eligibilities 3 = some 0 :=
  ⟨add_state_idempotent.1 _ 0 [some 0, some 1] (0, some 0) 5 rfl,
   add_state_idempotent.2.2.1 _ 0 [some 0, some 1] (some 1) (by decide) rfl,
   add_state_idempotent.2.2.2.2.1 _ 3 (2/3) 3 (1/2) rfl,
   add_state_idempotent.2.2.2.2.2.2.2 _ 3 (2/3) rfl⟩

/-! Claim C6: eligibility decay monotonicity. -/

/-- Claim C6: for discount rate and decay factor in (0,1), a call to
update_eligibilities (actor or critic) on a key with a non-zero trace t
stores t * (discount * decay), which has strictly smaller magnitude than t,
is non-zero, and has the same sign; since the stored trace is again
non-zero with the same sign, repeated calls keep strictly decreasing the
magnitude toward 0 without ever crossing zero. -/
theorem trace_decay_monotone (g lam : ℚ) (hg0 : 0 < g) (hg1 : g < 1)
    (hl0 : 0 < lam) (hl1 : lam < 1) :
    (∀ (a : TableBasedActor) (s : Nat) (act : Act) (t : ℚ),
      dget a.eligibilities (s, act) = some t → t ≠ 0 →
      ∃ a2, a.update_eligibilities s act g lam = some a2 ∧
        dget a2.eligibilities (s, act) = some (t * (g * lam)) ∧
        |t * (g * lam)| < |t| ∧ t * (g * lam) ≠ 0 ∧ (0 < t ↔ 0 < t * (g * lam))) ∧
    (∀ (c : TableBasedCritic) (s : Nat) (t : ℚ),
      dget c.eligibilities s = some t → t ≠ 0 →
      ∃ c2, c.update_eligibilities s g lam = some c2 ∧
        dget c2.eligibilities s = some (t * (g * lam)) ∧
        |t * (g * lam)| < |t| ∧ t * (g * lam) ≠ 0 ∧ (0 < t ↔ 0 < t * (g * lam))) := by
  have hq0 : 0 < g * lam := mul_pos hg0 hl0
  have hq1 : g * lam < 1 := by nlinarith
  have habs : ∀ t : ℚ, t ≠ 0 → |t * (g * lam)| < |t| := by
    intro t ht
    rw [abs_mul, abs_of_pos hq0]
    exact mul_lt_of_lt_one_right (abs_pos.mpr ht) hq1
  have hnz : ∀ t : ℚ, t ≠ 0 → t * (g * lam) ≠ 0 := fun t ht => mul_ne_zero ht hq0.ne'
  have hsign : ∀ t : ℚ, (0 < t ↔ 0 < t * (g * lam)) := by
    intro t
    constructor
    · intro h; exact mul_pos h hq0
    · intro h
      by_contra hle
      push_neg at hle
      nlinarith
  constructor
  · intro a s act t h ht
    refine ⟨{ a with eligibilities := dset a.eligibilities (s, act) (t * (g * lam)) },
      ?_, ?_, habs t ht, hnz t ht, hsign t⟩
    · simp [TableBasedActor.update_eligibilities, h]
    · show dget (dset a.eligibilities (s, act) (t * (g * lam))) (s, act) = _
      rw [dget_dset_self]
  · intro c s t h ht
    refine ⟨{ c with eligibilities := dset c.eligibilities s (t * (g * lam)) },
      ?_, ?_, habs t ht, hnz t ht, hsign t⟩
    · simp [TableBasedCritic.update_eligibilities, h]
    · show dget (dset c.eligibilities s (t * (g * lam))) s = _
      rw [dget_dset_self]

/-- Witness for C6 with discount 1/2, decay 1/3 and a concrete non-zero
actor trace and critic trace. -/
theorem trace_decay_monotone_witness :
    (∃ a2, (⟨[], [((0, some 0), 2)], []⟩ : TableBasedActor).update_eligibilities 0 (some 0)
        (1/2) (1/3) = some a2 ∧
      dget a2.eligibilities (0, some 0) = some (2 * ((1/2) * (1/3))) ∧
      |(2 : ℚ) * ((1/2) * (1/3))| < |(2 : ℚ)| ∧ (2 : ℚ) * ((1/2) * (1/3)) ≠ 0 ∧
      ((0 : ℚ) < 2 ↔ (0 : ℚ) < 2 * ((1/2) * (1/3)))) ∧
    (∃ c2, (⟨[], [(4, -3)]⟩ : TableBasedCritic).update_eligibilities 4 (1/2) (1/3) = some c2 ∧
      dget c2.eligibilities 4 = some ((-3) * ((1/2) * (1/3))) ∧
      |(-3 : ℚ) * ((1/2) * (1/3))| < |(-3 : ℚ)| ∧ (-3 : ℚ) * ((1/2) * (1/3)) ≠ 0 ∧
      ((0 : ℚ) < -3 ↔ (0 : ℚ) < (-3) * ((1/2) * (1/3)))) :=
  ⟨(trace_decay_monotone (1/2) (1/3) (by norm_num) (by norm_num) (by norm_num) (by norm_num)).1
      ⟨[], [((0, some 0), 2)], []⟩ 0 (some 0) 2 rfl (by norm_num),
   (trace_decay_monotone (1/2) (1/3) (by norm_num) (by norm_num) (by norm_num) (by norm_num)).2
      ⟨[], [(4, -3)]⟩ 4 (-3) rfl (by norm_num)⟩

/-! Greedy-scan lemmas used by claims C3, C8 and C10. -/

theorem greedyLoop_isSome (pol : Dict (Nat × Act) ℚ) (s n : Nat) :
    ∀ (l : List Act) (best : Act) (maxv : Option ℚ),
      (∀ x ∈ l, (dget pol (s, x)).isSome) → (greedyLoop pol s n l best maxv).isSome := by
  intro l
  induction l with
  | nil => intro best maxv _; rfl
  | cons x t ih =>
    intro best maxv h
    obtain ⟨p, hp⟩ := Option.isSome_iff_exists.mp (h x (List.mem_cons_self x t))
    have ht : ∀ y ∈ t, (dget pol (s, y)).isSome := fun y hy => h y (List.mem_cons_of_mem x hy)
    simp only [greedyLoop, hp]
    cases maxv with
    | none => exact ih _ _ ht
    | some m =>
      by_cases hc : m < p / (n : ℚ)
      · simp only [if_pos hc]
        exact ih _ _ ht
      · simp only [if_neg hc]
        exact ih _ _ ht

theorem greedyLoop_first_max (pol : Dict (Nat × Act) ℚ) (s n : Nat) (v : Act → ℚ) :
    ∀ (l : List Act) (b : Act) (m : ℚ),
      (∀ x ∈ l, dget pol (s, x) = some (v x)) →
      (greedyLoop pol s n l b (some m) = some b ∧ ∀ x ∈ l, v x / (n : ℚ) ≤ m) ∨
      (∃ i : Fin l.length,
        greedyLoop pol s n l b (some m) = some (l.get i) ∧
        m < v (l.get i) / (n : ℚ) ∧
        (∀ j : Fin l.length, v (l.get j) / (n : ℚ) ≤ v (l.get i) / (n : ℚ)) ∧
        (∀ j : Fin l.length, (j : ℕ) < (i : ℕ) →
          v (l.get j) / (n : ℚ) < v (l.get i) / (n : ℚ))) := by
  intro l
  induction l with
  | nil =>
    intro b m _
    exact Or.inl ⟨rfl, by intro x hx; cases hx⟩
  | cons x t ih =>
    intro b m h
    have hx := h x (List.mem_cons_self x t)
    have ht : ∀ y ∈ t, dget pol (s, y) = some (v y) :=
      fun y hy => h y (List.mem_cons_of_mem x hy)
    simp only [greedyLoop, hx]
    by_cases hc : m < v x / (n : ℚ)
    · simp only [if_pos hc]
      rcases ih x (v x / (n : ℚ)) ht with ⟨heq, hall⟩ | ⟨i, heq, hlt, hmax, hfirst⟩
      · refine Or.inr ⟨⟨0, Nat.succ_pos _⟩, heq, hc, ?_, ?_⟩
        · intro j
          rcases j with ⟨jn, hj⟩
          cases jn with
          | zero => exact le_refl _
          | succ k =>
            exact hall (t.get ⟨k, Nat.lt_of_succ_lt_succ hj⟩) (t.get_mem _ _)
        · intro j hj
          exact absurd hj (Nat.not_lt_zero _)
      · refine Or.inr ⟨⟨i.1 + 1, Nat.succ_lt_succ i.2⟩, heq, lt_trans hc hlt, ?_, ?_⟩
        · intro j
          rcases j with ⟨jn, hj⟩
          cases jn with
          | zero => exact le_of_lt hlt
          | succ k => exact hmax ⟨k, Nat.lt_of_succ_lt_succ hj⟩
        · intro j hj
          rcases j with ⟨jn, hjlen⟩
          cases jn with
          | zero => exact hlt
          | succ k =>
            exact hfirst ⟨k, Nat.lt_of_succ_lt_succ hjlen⟩ (Nat.lt_of_succ_lt_succ hj)
    · simp only [if_neg hc]
      push_neg at hc
      rcases ih b m ht with ⟨heq, hall⟩ | ⟨i, heq, hlt, hmax, hfirst⟩
      · refine Or.inl ⟨heq, ?_⟩
        intro y hy
        rcases List.mem_cons.mp hy with rfl | hmem
        · exact hc
        · exact hall y hmem
      · refine Or.inr ⟨⟨i.1 + 1, Nat.succ_lt_succ i.2⟩, heq, hlt, ?_, ?_⟩
        · intro j
          rcases j with ⟨jn, hj⟩
          cases jn with
          | zero => exact le_of_lt (lt_of_le_of_lt hc hlt)
          | succ k => exact hmax ⟨k, Nat.lt_of_succ_lt_succ hj⟩
        · intro j hj
          rcases j with ⟨jn, hjlen⟩
          cases jn with
          | zero => exact lt_of_le_of_lt hc hlt
          | succ k =>
            exact hfirst ⟨k, Nat.lt_of_succ_lt_succ hjlen⟩ (Nat.lt_of_succ_lt_succ hj)

theorem greedy_full_first_max (pol : Dict (Nat × Act) ℚ) (s n : Nat) (v : Act → ℚ)
    (l : List Act) (hne : l ≠ []) (h : ∀ x ∈ l, dget pol (s, x) = some (v x)) :
    ∃ i : Fin l.length,
      greedyLoop pol s n l none none = some (l.get i) ∧
      (∀ j : Fin l.length, v (l.get j) / (n : ℚ) ≤ v (l.get i) / (n : ℚ)) ∧
      (∀ j : Fin l.length, (j : ℕ) < (i : ℕ) →
        v (l.get j) / (n : ℚ) < v (l.get i) / (n : ℚ)) := by
  cases l with
  | nil => exact absurd rfl hne
  | cons x t =>
    have hx := h x (List.mem_cons_self x t)
    have ht : ∀ y ∈ t, dget pol (s, y) = some (v y) :=
      fun y hy => h y (List.mem_cons_of_mem x hy)
    simp only [greedyLoop, hx]
    rcases greedyLoop_first_max pol s n v t x (v x / (n : ℚ)) ht with
      ⟨heq, hall⟩ | ⟨i, heq, hlt, hmax, hfirst⟩
    · refine ⟨⟨0, Nat.succ_pos _⟩, heq, ?_, ?_⟩
      · intro j
        rcases j with ⟨jn, hj⟩
        cases jn with
        | zero => exact le_refl _
        | succ k => exact hall (t.get ⟨k, Nat.lt_of_succ_lt_succ hj⟩) (t.get_mem _ _)
      · intro j hj
        exact absurd hj (Nat.not_lt_zero _)
    · refine ⟨⟨i.1 + 1, Nat.succ_lt_succ i.2⟩, heq, ?_, ?_⟩
      · intro j
        rcases j with ⟨jn, hj⟩
        cases jn with
        | zero => exact le_of_lt hlt
        | succ k => exact hmax ⟨k, Nat.lt_of_succ_lt_succ hj⟩
      · intro j hj
        rcases j with ⟨jn, hjlen⟩
        cases jn with
        | zero => exact hlt
        | succ k =>
          exact hfirst ⟨k, Nat.lt_of_succ_lt_succ hjlen⟩ (Nat.lt_of_succ_lt_succ hj)

/-! Claim C3: deterministic greedy selection at epsilon = 0. -/

/-- Claim C3: for a registered state with a non-empty legal-action list
whose pairs all carry policy values p, propose_action with epsilon 0
deterministically returns the action at the first index maximizing
preference / branching factor: the result does not depend on the uniform
draw (any u at or above 0, as np.random.uniform yields) nor on the choice
draw, every action's normalized preference is at most the returned one's,
and every earlier action's is strictly smaller (first-encountered maximum
under a strict greater-than scan). -/
theorem greedy_propose_first_max (a : TableBasedActor) (s : Nat) (acts : List Act)
    (p : Act → ℚ) (u u' : ℚ) (r r' : Nat)
    (hreg : dget a.state_actions s = some acts) (hne : acts ≠ [])
    (hp : ∀ x ∈ acts, dget a.policy (s, x) = some (p x))
    (hu : 0 ≤ u) (hu' : 0 ≤ u') :
    ∃ i : Fin acts.length,
      a.propose_action s 0 u r = some (acts.get i) ∧
      a.propose_action s 0 u' r' = some (acts.get i) ∧
      (∀ j : Fin acts.length,
        p (acts.get j) / (acts.length : ℚ) ≤ p (acts.get i) / (acts.length : ℚ)) ∧
      (∀ j : Fin acts.length, (j : ℕ) < (i : ℕ) →
        p (acts.get j) / (acts.length : ℚ) < p (acts.get i) / (acts.length : ℚ)) := by
  obtain ⟨i, heq, hmax, hfirst⟩ := greedy_full_first_max a.policy s acts.length p acts hne hp
  refine ⟨i, ?_, ?_, hmax, hfirst⟩
  · simp only [TableBasedActor.propose_action, hreg, if_neg (not_lt.mpr hu)]
    exact heq
  · simp only [TableBasedActor.propose_action, hreg, if_neg (not_lt.mpr hu')]
    exact heq

/-- Witness for C3: a three-action state whose middle action has the
strictly largest preference; the scan returns it for two different draw
pairs. -/
theorem greedy_propose_first_max_witness :
    ∃ i : Fin ([some 0, some 1, some 2] : List Act).length,
      TableBasedActor.propose_action
        ⟨[((0, some 0), 2), ((0, some 1), 4), ((0, some 2), 4)],
         [((0, some 0), 0), ((0, some 1), 0), ((0, some 2), 0)],
         [(0, [some 0, some 1, some 2])]⟩ 0 0 0 0 = some (([some 0, some 1, some 2] : List Act).get i) ∧
      TableBasedActor.propose_action
        ⟨[((0, some 0), 2), ((0, some 1), 4), ((0, some 2), 4)],
         [((0, some 0), 0), ((0, some 1), 0), ((0, some 2), 0)],
         [(0, [some 0, some 1, some 2])]⟩ 0 0 (1/2) 7 = some (([some 0, some 1, some 2] : List Act).get i) ∧
      (∀ j : Fin ([some 0, some 1, some 2] : List Act).length,
        (fun x : Act => if x = some 0 then (2 : ℚ) else 4) (([some 0, some 1, some 2] : List Act).get j) / (3 : ℚ) ≤
        (fun x : Act => if x = some 0 then (2 : ℚ) else 4) (([some 0, some 1, some 2] : List Act).get i) / (3 : ℚ)) ∧
      (∀ j : Fin ([some 0, some 1, some 2] : List Act).length, (j : ℕ) < (i : ℕ) →
        (fun x : Act => if x = some 0 then (2 : ℚ) else 4) (([some 0, some 1, some 2] : List Act).get j) / (3 : ℚ) <
        (fun x : Act => if x = some 0 then (2 : ℚ) else 4) (([some 0, some 1, some 2] : List Act).get i) / (3 : ℚ)) :=
  greedy_propose_first_max
    ⟨[((0, some 0), 2), ((0, some 1), 4), ((0, some 2), 4)],
     [((0, some 0), 0), ((0, some 1), 0), ((0, some 2), 0)],
     [(0, [some 0, some 1, some 2])]⟩ 0 [some 0, some 1, some 2]
    (fun x : Act => if x = some 0 then (2 : ℚ) else 4) 0 (1/2) 0 7
    rfl (by decide) (by intro x hx; fin_cases hx <;> rfl) (by norm_num) (by norm_num)

/-! Claim C8: unregistered lookups fail, registered ones do not. -/

/-- Claim C8: the fallible operations fail exactly on unregistered keys.
propose_action fails whenever the state was never registered, and succeeds
for a registered state under the stated preconditions (a non-empty action
list whose pairs are all in the policy table); compute_td_error,
update_value_function, update_policy and both update_eligibilities succeed
exactly when every key they read is registered. -/
theorem unregistered_lookup_fails :
    (∀ (a : TableBasedActor) (s : Nat) (eps u : ℚ) (r : Nat),
      dget a.state_actions s = none → a.propose_action s eps u r = none) ∧
    (∀ (a : TableBasedActor) (s : Nat) (eps u : ℚ) (r : Nat) (acts : List Act),
      dget a.state_actions s = some acts → acts ≠ [] →
      (∀ x ∈ acts, (dget a.policy (s, x)).isSome) →
      (a.propose_action s eps u r).isSome) ∧
    (∀ (c : TableBasedCritic) (cur suc : Nat) (rw g : ℚ),
      (c.compute_td_error cur suc rw g).isSome ↔
        ((dget c.state_values cur).isSome ∧ (dget c.state_values suc).isSome)) ∧
    (∀ (c : TableBasedCritic) (s : Nat) (lr td : ℚ),
      (c.update_value_function s lr td).isSome ↔
        ((dget c.state_values s).isSome ∧ (dget c.eligibilities s).isSome)) ∧
    (∀ (c : TableBasedCritic) (s : Nat) (g lam : ℚ),
      (c.update_eligibilities s g lam).isSome ↔ (dget c.eligibilities s).isSome) ∧
    (∀ (a : TableBasedActor) (s : Nat) (act : Act) (lr td : ℚ),
      (a.update_policy s act lr td).isSome ↔
        ((dget a.policy (s, act)).isSome ∧ (dget a.eligibilities (s, act)).isSome)) ∧
    (∀ (a : TableBasedActor) (s : Nat) (act : Act) (g lam : ℚ),
      (a.update_eligibilities s act g lam).isSome ↔
        (dget a.eligibilities (s, act)).isSome) := by
  refine ⟨?_, ?_, ?_, ?_, ?_, ?_, ?_⟩
  · intro a s eps u r h
    simp [TableBasedActor.propose_action, h]
  · intro a s eps u r acts hreg hne hp
    simp only [TableBasedActor.propose_action, hreg]
    by_cases hc : u < eps
    · simp only [if_pos hc]
      have hlen : r % acts.length < acts.length :=
        Nat.mod_lt _ (List.length_pos.mpr hne)
      rw [List.get?_eq_get hlen]
      rfl
    · simp only [if_neg hc]
      exact greedyLoop_isSome a.policy s acts.length acts none none hp
  · intro c cur suc rw g
    cases h1 : dget c.state_values cur <;> cases h2 : dget c.state_values suc <;>
      simp [TableBasedCritic.compute_td_error, h1, h2]
  · intro c s lr td
    cases h1 : dget c.state_values s <;> cases h2 : dget c.eligibilities s <;>
      simp [TableBasedCritic.update_value_function, h1, h2]
  · intro c s g lam
    cases h : dget c.eligibilities s <;>
      simp [TableBasedCritic.update_eligibilities, h]
  · intro a s act lr td
    cases h1 : dget a.policy (s, act) <;> cases h2 : dget a.eligibilities (s, act) <;>
      simp [TableBasedActor.update_policy, h1, h2]
  · intro a s act g lam
    cases h : dget a.eligibilities (s, act) <;>
      simp [TableBasedActor.update_eligibilities, h]

/-- Witness for C8: proposing from the unregistered state 5 fails; on a
registered one-action state the proposal, the TD-error computation and the
policy update all succeed. -/
theorem unregistered_lookup_fails_witness :
    TableBasedActor.propose_action ⟨[((0, some 0), 1)], [((0, some 0), 0)], [(0, [some 0])]⟩
      5 0 0 0 = none ∧
    (TableBasedActor.propose_action ⟨[((0, some 0), 1)], [((0, some 0), 0)], [(0, [some 0])]⟩
      0 0 0 0).isSome ∧
    ((⟨[(0, 1), (1, 2)], [(0, 0), (1, 0)]⟩ : TableBasedCritic).compute_td_error 0 1 1 1).isSome ∧
    ¬ ((⟨[(0, 1), (1, 2)], [(0, 0), (1, 0)]⟩ : TableBasedCritic).compute_td_error 0 7 1 1).isSome :=
  ⟨unregistered_lookup_fails.1 _ 5 0 0 0 rfl,
   unregistered_lookup_fails.2.1 _ 0 0 0 0 [some 0] rfl (by decide)
     (by intro x hx; fin_cases hx; rfl),
   (unregistered_lookup_fails.2.2.1 _ 0 1 1 1).mpr ⟨rfl, rfl⟩,
   fun h => by
     have h2 := (unregistered_lookup_fails.2.2.1
       (⟨[(0, 1), (1, 2)], [(0, 0), (1, 0)]⟩ : TableBasedCritic) 0 7 1 1).mp h
     exact absurd h2.2 (by decide)⟩

/-! Claim C10: empty action list yields the None sentinel. -/

/-- Claim C10: for a state registered with an empty legal-action list,
propose_action with epsilon 0 succeeds and returns the None sentinel, in
both actor variants: the exploration branch is not taken, and the greedy
scan over an empty action list never replaces the initial None candidate. -/
theorem propose_empty_actions_none :
    (∀ (a : TableBasedActor) (s : Nat) (u : ℚ) (r : Nat), 0 ≤ u →
      dget a.state_actions s = some [] → a.propose_action s 0 u r = some none) ∧
    (∀ (hash : List Nat → Nat) (a : ActorPy) (state : List Nat) (u : ℚ) (r : Nat),
      0 ≤ u → a.epsilon = 0 → dget a.state_actions (hash state) = some [] →
      ActorPy.propose_action hash a state u r = some none) := by
  constructor
  · intro a s u r hu hreg
    simp only [TableBasedActor.propose_action, hreg, if_neg (not_lt.mpr hu)]
    rfl
  · intro hash a state u r hu heps hreg
    simp only [ActorPy.propose_action, hreg, heps, if_neg (not_lt.mpr hu)]
    rfl

/-- Witness for C10: a concrete actor of each variant with a state whose
action list is empty. -/
theorem propose_empty_actions_none_witness :
    TableBasedActor.propose_action ⟨[], [], [(3, [])]⟩ 3 0 0 0 = some none ∧
    ActorPy.propose_action (fun l => l.length) ⟨[], [], [(0, [])], 1, 0⟩ [] 0 5 = some none :=
  ⟨propose_empty_actions_none.1 ⟨[], [], [(3, [])]⟩ 3 0 0 (by norm_num) rfl,
   propose_empty_actions_none.2 (fun l => l.length) ⟨[], [], [(0, [])], 1, 0⟩ [] 0 5
     (by norm_num) rfl rfl⟩

/-! Claim C9: the two orchestrator implementations. -/

/-- Counterexample to C9 as stated: the very first actor call that the
rl/core.py orchestrator makes is the zero-argument construction
TableBasedActor() (line 29), and the actor it thereby constructs, the one
imported from rl/actor.py, does not accept that call: its constructor has
the required parameters learning_rate and epsilon.  So it is false that the
Actor each orchestrator constructs accepts the calls that orchestrator
makes. -/
theorem core_actor_rejects_construction :
    (⟨"init", 0, []⟩ : CallSite) ∈ coreFitActorCalls ∧
    callAccepted rlActorParams ⟨"init", 0, []⟩ = false := by
  constructor
  · simp [coreFitActorCalls]
  · rfl

/-- Amended C9: the two fit bodies make literally the same actor-call
sequence, and the rl/acm.py actor accepts every call in it; but the
rl/actor.py actor that rl/core.py instantiates rejects the zero-argument
construction, both propose_action calls (which pass epsilon per call), and
the update_policy call (which passes learning_rate per call), so the
rl/core.py orchestrator fails at its first actor call instead of producing
a run equivalent to rl/acm.py's. -/
theorem orchestrator_duplication_amended :
    coreFitActorCalls = acmFitActorCalls ∧
    acmFitActorCalls.all (fun c => callAccepted acmActorParams c) = true ∧
    coreFitActorCalls.filter (fun c => ! callAccepted rlActorParams c) =
      [⟨"init", 0, []⟩,
       ⟨"propose_action", 2, []⟩,
       ⟨"propose_action", 0, ["state", "epsilon"]⟩,
       ⟨"update_policy", 0, ["state", "action", "learning_rate", "td_error"]⟩] := by
  refine ⟨rfl, rfl, rfl⟩

/-! Claim C7: the epsilon schedule. -/

theorem fitStep_epsilon {σ : Type} (cfg : ACM) (d : Domain σ) (rng : Rng)
    (st : FitState σ) (ep : List (Nat × Act)) (cs : Nat) (ca : Act)
    (out : FitState σ × List (Nat × Act) × Nat × Act)
    (h : cfg.fitStep d rng st ep cs ca = some out) : out.1.epsilon = st.epsilon := by
  simp only [ACM.fitStep] at h
  split at h
  · exact Option.noConfusion h
  · split at h
    · exact Option.noConfusion h
    · split at h
      · exact Option.noConfusion h
      · cases h
        rfl

theorem runSteps_epsilon {σ : Type} (cfg : ACM) (d : Domain σ) (rng : Rng) :
    ∀ (n : Nat) (st : FitState σ) (ep : List (Nat × Act)) (cs : Nat) (ca : Act)
      (st2 : FitState σ), ACM.runSteps cfg d rng n st ep cs ca = some st2 →
      st2.epsilon = st.epsilon := by
  intro n
  induction n with
  | zero =>
    intro st ep cs ca st2 h
    cases h
    rfl
  | succ n ih =>
    intro st ep cs ca st2 h
    simp only [ACM.runSteps] at h
    split at h
    · cases h
      rfl
    · split at h
      · exact Option.noConfusion h
      · rename_i r hr
        exact (ih _ _ _ _ _ h).trans (fitStep_epsilon cfg d rng st ep cs ca r hr)

theorem runEpisode_epsilon {σ : Type} (cfg : ACM) (d : Domain σ) (rng : Rng)
    (st st2 : FitState σ) (h : cfg.runEpisode d rng st = some st2) :
    st2.epsilon = st.epsilon * cfg.epsilon_decay := by
  simp only [ACM.runEpisode] at h
  split at h
  · exact Option.noConfusion h
  · split at h
    · exact Option.noConfusion h
    · rename_i st3 hst3
      cases h
      have he := runSteps_epsilon cfg d rng cfg.steps _ _ _ _ _ hst3
      simp only at he
      simp [he]

theorem runEpisodes_epsilon {σ : Type} (cfg : ACM) (d : Domain σ) (rng : Rng) :
    ∀ (n : Nat) (st st2 : FitState σ), cfg.runEpisodes d rng n st = some st2 →
      st2.epsilon = st.epsilon * cfg.epsilon_decay ^ n := by
  intro n
  induction n with
  | zero =>
    intro st st2 h
    cases h
    simp
  | succ n ih =>
    intro st st2 h
    simp only [ACM.runEpisodes] at h
    split at h
    · exact Option.noConfusion h
    · rename_i st3 hst3
      rw [ih _ _ h, runEpisode_epsilon cfg d rng st st3 hst3, pow_succ]
      ring

/-- Claim C7: the exploration rate is multiplied by epsilon_decay exactly
once at the end of each episode, whatever the episode's outcome, so a
completed training run of max_episodes episodes ends with epsilon equal to
the configured initial epsilon times epsilon_decay raised to
max_episodes. -/
theorem epsilon_schedule {σ : Type} (cfg : ACM) (d : Domain σ) (rng : Rng) (s0 : σ)
    (st2 : FitState σ) (h : cfg.fit d rng s0 = some st2) :
    st2.epsilon = cfg.epsilon * cfg.epsilon_decay ^ cfg.max_episodes :=
  runEpisodes_epsilon cfg d rng cfg.max_episodes _ st2 h

/-- Witness for C7: a two-episode run on the immediately-terminal domain
completes and ends with epsilon (1/2) * (1/2)^2. -/
theorem epsilon_schedule_witness :
    ∃ st2, cfgW.fit domW rngW () = some st2 ∧
      st2.epsilon = cfgW.epsilon * cfgW.epsilon_decay ^ cfgW.max_episodes := by
  have h : cfgW.fit domW rngW () =
      some { actor := ⟨[((0, some 0), 0)], [((0, some 0), 0)], [(0, [some 0])]⟩,
             critic := ⟨[(0, 0)], [(0, 0)]⟩,
             epsilon := (1/2 : ℚ) * (1/2) * (1/2), dom := (),
             uctr := 3, cctr := 2 } := by
    norm_num [ACM.fit, ACM.runEpisodes, ACM.runEpisode, ACM.runSteps, cfgW, domW, rngW,
      TableBasedActor.empty, TableBasedCritic.empty, TableBasedActor.reset_eligibilities,
      TableBasedCritic.reset_eligibilities, TableBasedActor.add_state,
      TableBasedCritic.add_state, criticAddRng, proposeWithRng,
      TableBasedActor.propose_action, dzero, dget, dset, dinsIfAbsent]
  exact ⟨_, h, epsilon_schedule cfgW domW rngW () _ h⟩

/-! Claim C2: the per-step credit-assignment sweep. -/

theorem sweep_eq_sweepSpec (dr df alr clr td : ℚ) :
    ∀ (l : List (Nat × Act)) (ac : TableBasedActor × TableBasedCritic),
      sweep dr df alr clr td l ac = sweepSpec dr df alr clr td l ac := by
  intro l
  induction l with
  | nil => intro ac; rfl
  | cons e rest ih =>
    intro ac
    obtain ⟨s, act⟩ := e
    cases h1 : ac.2.update_value_function s clr td with
    | none => simp [sweep, sweepSpec, sweepEntrySpec, h1]
    | some c1 =>
      cases h2 : c1.update_eligibilities s dr df with
      | none => simp [sweep, sweepSpec, sweepEntrySpec, h1, h2]
      | some c2 =>
        cases h3 : ac.1.update_policy s act alr td with
        | none => simp [sweep, sweepSpec, sweepEntrySpec, h1, h2, h3]
        | some a1 =>
          cases h4 : a1.update_eligibilities s act dr df with
          | none => simp [sweep, sweepSpec, sweepEntrySpec, h1, h2, h3, h4]
          | some a2 => simp [sweep, sweepSpec, sweepEntrySpec, h1, h2, h3, h4, ih]

theorem sweepSpec_append (dr df alr clr td : ℚ) :
    ∀ (l : List (Nat × Act)) (e : Nat × Act) (ac : TableBasedActor × TableBasedCritic),
      sweepSpec dr df alr clr td (l ++ [e]) ac =
        (sweepSpec dr df alr clr td l ac).bind (sweepEntrySpec dr df alr clr td e) := by
  intro l
  induction l with
  | nil =>
    intro e ac
    simp only [List.nil_append, sweepSpec]
    cases h : sweepEntrySpec dr df alr clr td e ac <;> simp [sweepSpec, h]
  | cons x rest ih =>
    intro e ac
    simp only [List.cons_append, sweepSpec]
    cases h : sweepEntrySpec dr df alr clr td x ac <;> simp [h, ih]

/-- Claim C2: on every successful step the orchestrator appends the
just-taken pair to the episode history, and, after marking that pair's
actor trace and the current state's critic trace to 1 and computing the TD
error, obtains its new actor and critic exactly by the spec-described
sweep over the entire recorded history (the appended pair included) in
recorded oldest-first order, performing critic value update, critic trace
decay, actor preference update and actor trace decay per entry; the final
conjunct states that the sweep of an extended history is the sweep of the
prefix followed by the last entry's updates reading the already-mutated
tables. -/
theorem step_replays_full_history {σ : Type} (cfg : ACM) (d : Domain σ) (rng : Rng)
    (st : FitState σ) (ep : List (Nat × Act)) (cs : Nat) (ca : Act)
    (out : FitState σ × List (Nat × Act) × Nat × Act)
    (h : cfg.fitStep d rng st ep cs ca = some out) :
    out.2.1 = ep ++ [(cs, ca)] ∧
    (∃ td c2,
      (criticAddRng st.critic (d.generate_child_state st.dom ca).1.state rng
          st.uctr).1.compute_td_error cs (d.generate_child_state st.dom ca).1.state
          (d.generate_child_state st.dom ca).1.reward cfg.discount_rate = some (td, c2) ∧
      sweepSpec cfg.discount_rate cfg.decay_factor cfg.actor_lr cfg.critic_lr td
          (ep ++ [(cs, ca)])
          (markActor (st.actor.add_state (d.generate_child_state st.dom ca).1.state
              (d.generate_child_state st.dom ca).1.actions) cs ca,
           markCritic c2 cs)
        = some (out.1.actor, out.1.critic)) ∧
    (∀ (dr df alr clr td : ℚ) (l : List (Nat × Act)) (e : Nat × Act)
        (ac : TableBasedActor × TableBasedCritic),
      sweepSpec dr df alr clr td (l ++ [e]) ac =
        (sweepSpec dr df alr clr td l ac).bind (sweepEntrySpec dr df alr clr td e)) := by
  simp only [ACM.fitStep] at h
  split at h
  · exact Option.noConfusion h
  · split at h
    · exact Option.noConfusion h
    · rename_i pr hpr tdc htd
      split at h
      · exact Option.noConfusion h
      · rename_i ac hsweep
        cases h
        refine ⟨rfl, ⟨tdc.1, tdc.2, by simpa using htd, ?_⟩, sweepSpec_append⟩
        rw [← sweep_eq_sweepSpec]
        simpa using hsweep

/-- Witness for C2: a concrete successful step on the one-state domain,
starting from a registered mid-episode state. -/
theorem step_replays_full_history_witness :
    ∃ out, ACM.fitStep cfgW domW rngW stW [] 0 (some 0) = some out ∧
      (out.2.1 = [] ++ [(0, some 0)] ∧
      (∃ td c2,
        (criticAddRng stW.critic (domW.generate_child_state stW.dom (some 0)).1.state rngW
            stW.uctr).1.compute_td_error 0 (domW.generate_child_state stW.dom (some 0)).1.state
            (domW.generate_child_state stW.dom (some 0)).1.reward cfgW.discount_rate
          = some (td, c2) ∧
        sweepSpec cfgW.discount_rate cfgW.decay_factor cfgW.actor_lr cfgW.critic_lr td
            ([] ++ [(0, some 0)])
            (markActor (stW.actor.add_state (domW.generate_child_state stW.dom (some 0)).1.state
                (domW.generate_child_state stW.dom (some 0)).1.actions) 0 (some 0),
             markCritic c2 0)
          = some (out.1.actor, out.1.critic)) ∧
      (∀ (dr df alr clr td : ℚ) (l : List (Nat × Act)) (e : Nat × Act)
          (ac : TableBasedActor × TableBasedCritic),
        sweepSpec dr df alr clr td (l ++ [e]) ac =
          (sweepSpec dr df alr clr td l ac).bind (sweepEntrySpec dr df alr clr td e))) := by
  have h : ACM.fitStep cfgW domW rngW stW [] 0 (some 0) =
      some ({ actor := ⟨[((0, some 0), 0)], [((0, some 0), 1/4)], [(0, [some 0])]⟩,
              critic := ⟨[(0, 0)], [(0, 1/4)]⟩,
              epsilon := 0, dom := (), uctr := 1, cctr := 0 },
            [(0, some 0)], 0, some 0) := by
    norm_num [ACM.fitStep, cfgW, domW, rngW, stW, TableBasedActor.add_state,
      TableBasedCritic.add_state, criticAddRng, proposeWithRng,
      TableBasedActor.propose_action, greedyLoop, markActor, markCritic, sweep,
      TableBasedCritic.compute_td_error, TableBasedCritic.update_value_function,
      TableBasedCritic.update_eligibilities, TableBasedActor.update_policy,
      TableBasedActor.update_eligibilities, dget, dset, dinsIfAbsent]
  exact ⟨_, h, step_replays_full_history cfgW domW rngW stW [] 0 (some 0) _ h⟩

/-! Preservation lemmas feeding the loop invariant of claim C5. -/

theorem isSome_dget_dzero {K : Type} [DecidableEq K] (d : Dict K ℚ) (k : K) :
    (dget (dzero d) k).isSome = (dget d k).isSome := by
  rw [dget_dzero]
  cases dget d k <;> rfl

theorem isSome_dget_dset_of_mem {K V : Type} [DecidableEq K] (d : Dict K V) (k k' : K)
    (v : V) (hk : (dget d k).isSome) :
    (dget (dset d k v) k').isSome ↔ (dget d k').isSome := by
  rw [isSome_dget_dset]
  constructor
  · rintro (rfl | h)
    · exact hk
    · exact h
  · exact Or.inr

theorem update_value_function_some (c : TableBasedCritic) (s : Nat) (lr td : ℚ)
    (c2 : TableBasedCritic) (h : c.update_value_function s lr td = some c2) :
    (∀ k, (dget c2.state_values k).isSome ↔ (dget c.state_values k).isSome) ∧
    c2.eligibilities = c.eligibilities := by
  unfold TableBasedCritic.update_value_function at h
  split at h
  · rename_i v e hv he
    cases h
    exact ⟨fun k => isSome_dget_dset_of_mem _ _ _ _ (by rw [hv]; rfl), rfl⟩
  · exact Option.noConfusion h

theorem critic_update_eligibilities_some (c : TableBasedCritic) (s : Nat) (dr df : ℚ)
    (c2 : TableBasedCritic) (h : c.update_eligibilities s dr df = some c2) :
    (∀ k, (dget c2.eligibilities k).isSome ↔ (dget c.eligibilities k).isSome) ∧
    c2.state_values = c.state_values := by
  unfold TableBasedCritic.update_eligibilities at h
  split at h
  · rename_i e he
    cases h
    exact ⟨fun k => isSome_dget_dset_of_mem _ _ _ _ (by rw [he]; rfl), rfl⟩
  · exact Option.noConfusion h

theorem update_policy_some (a : TableBasedActor) (s : Nat) (act : Act) (lr td : ℚ)
    (a2 : TableBasedActor) (h : a.update_policy s act lr td = some a2) :
    (∀ k, (dget a2.policy k).isSome ↔ (dget a.policy k).isSome) ∧
    a2.eligibilities = a.eligibilities ∧ a2.state_actions = a.state_actions := by
  unfold TableBasedActor.update_policy at h
  split at h
  · rename_i p e hp he
    cases h
    exact ⟨fun k => isSome_dget_dset_of_mem _ _ _ _ (by rw [hp]; rfl), rfl, rfl⟩
  · exact Option.noConfusion h

theorem actor_update_eligibilities_some (a : TableBasedActor) (s : Nat) (act : Act)
    (dr df : ℚ) (a2 : TableBasedActor) (h : a.update_eligibilities s act dr df = some a2) :
    (∀ k, (dget a2.eligibilities k).isSome ↔ (dget a.eligibilities k).isSome) ∧
    a2.policy = a.policy ∧ a2.state_actions = a.state_actions := by
  unfold TableBasedActor.update_eligibilities at h
  split at h
  · rename_i e he
    cases h
    exact ⟨fun k => isSome_dget_dset_of_mem _ _ _ _ (by rw [he]; rfl), rfl, rfl⟩
  · exact Option.noConfusion h

theorem update_value_function_succeeds (c : TableBasedCritic) (s : Nat) (lr td : ℚ)
    (h1 : (dget c.state_values s).isSome) (h2 : (dget c.eligibilities s).isSome) :
    ∃ c2, c.update_value_function s lr td = some c2 := by
  obtain ⟨v, hv⟩ := Option.isSome_iff_exists.mp h1
  obtain ⟨e, he⟩ := Option.isSome_iff_exists.mp h2
  exact ⟨{ c with state_values := dset c.state_values s (v + lr * td * e) },
    by simp [TableBasedCritic.update_value_function, hv, he]⟩

theorem critic_update_eligibilities_succeeds (c : TableBasedCritic) (s : Nat) (dr df : ℚ)
    (h : (dget c.eligibilities s).isSome) : ∃ c2, c.update_eligibilities s dr df = some c2 := by
  obtain ⟨e, he⟩ := Option.isSome_iff_exists.mp h
  exact ⟨{ c with eligibilities := dset c.eligibilities s (e * (dr * df)) },
    by simp [TableBasedCritic.update_eligibilities, he]⟩

theorem update_policy_succeeds (a : TableBasedActor) (s : Nat) (act : Act) (lr td : ℚ)
    (h1 : (dget a.policy (s, act)).isSome) (h2 : (dget a.eligibilities (s, act)).isSome) :
    ∃ a2, a.update_policy s act lr td = some a2 := by
  obtain ⟨p, hp⟩ := Option.isSome_iff_exists.mp h1
  obtain ⟨e, he⟩ := Option.isSome_iff_exists.mp h2
  exact ⟨{ a with policy := dset a.policy (s, act) (p + lr * td * e) },
    by simp [TableBasedActor.update_policy, hp, he]⟩

theorem actor_update_eligibilities_succeeds (a : TableBasedActor) (s : Nat) (act : Act)
    (dr df : ℚ) (h : (dget a.eligibilities (s, act)).isSome) :
    ∃ a2, a.update_eligibilities s act dr df = some a2 := by
  obtain ⟨e, he⟩ := Option.isSome_iff_exists.mp h
  exact ⟨{ a with eligibilities := dset a.eligibilities (s, act) (e * (dr * df)) },
    by simp [TableBasedActor.update_eligibilities, he]⟩

theorem compute_td_error_succeeds (c : TableBasedCritic) (cur suc : Nat) (r g : ℚ)
    (h1 : (dget c.state_values cur).isSome) (h2 : (dget c.state_values suc).isSome) :
    ∃ td, c.compute_td_error cur suc r g = some (td, c) := by
  obtain ⟨v1, hv1⟩ := Option.isSome_iff_exists.mp h1
  obtain ⟨v2, hv2⟩ := Option.isSome_iff_exists.mp h2
  exact ⟨r + g * v2 - v1, by simp [TableBasedCritic.compute_td_error, hv1, hv2]⟩

theorem criticAddRng_fst (c : TableBasedCritic) (s : Nat) (rng : Rng) (u : Nat) :
    ∃ v, (criticAddRng c s rng u).1 = c.add_state s v := by
  unfold criticAddRng
  split
  · exact ⟨0, rfl⟩
  · exact ⟨rng.uniform u, rfl⟩

theorem add_state_aligned (a : TableBasedActor) (s : Nat) (acts : List Act)
    (h : ∀ k, (dget a.policy k).isSome ↔ (dget a.eligibilities k).isSome) (k : Nat × Act) :
    (dget (a.add_state s acts).policy k).isSome ↔
    (dget (a.add_state s acts).eligibilities k).isSome := by
  rw [add_state_eq]
  simp only
  rw [isSome_dget_addKeys_iff, isSome_dget_addKeys_iff, h k]

theorem critic_add_state_aligned (c : TableBasedCritic) (s : Nat) (u : ℚ)
    (h : ∀ k, (dget c.state_values k).isSome ↔ (dget c.eligibilities k).isSome) (k : Nat) :
    (dget (c.add_state s u).state_values k).isSome ↔
    (dget (c.add_state s u).eligibilities k).isSome := by
  unfold TableBasedCritic.add_state
  simp only
  rw [isSome_dget_dinsIfAbsent_iff, isSome_dget_dinsIfAbsent_iff, h k]

theorem greedyLoop_mem (pol : Dict (Nat × Act) ℚ) (s n : Nat) :
    ∀ (l : List Act) (b : Act) (m : Option ℚ) (res : Act),
      greedyLoop pol s n l b m = some res → res = b ∨ res ∈ l := by
  intro l
  induction l with
  | nil =>
    intro b m res h
    cases h
    exact Or.inl rfl
  | cons x t ih =>
    intro b m res h
    cases m with
    | none =>
      cases hd : dget pol (s, x) with
      | none => simp [greedyLoop, hd] at h
      | some p =>
        simp only [greedyLoop, hd] at h
        rcases ih x _ res h with rfl | hm
        · exact Or.inr (List.mem_cons_self _ _)
        · exact Or.inr (List.mem_cons_of_mem _ hm)
    | some m0 =>
      cases hd : dget pol (s, x) with
      | none => simp [greedyLoop, hd] at h
      | some p =>
        simp only [greedyLoop, hd] at h
        by_cases hc : m0 < p / (n : ℚ)
        · rw [if_pos hc] at h
          rcases ih x _ res h with rfl | hm
          · exact Or.inr (List.mem_cons_self _ _)
          · exact Or.inr (List.mem_cons_of_mem _ hm)
        · rw [if_neg hc] at h
          rcases ih b _ res h with rfl | hm
          · exact Or.inl rfl
          · exact Or.inr (List.mem_cons_of_mem _ hm)

theorem propose_action_mem (a : TableBasedActor) (s : Nat) (eps u : ℚ) (r : Nat)
    (acts : List Act) (act : Act) (hreg : dget a.state_actions s = some acts)
    (hne : acts ≠ []) (h : a.propose_action s eps u r = some act) : act ∈ acts := by
  simp only [TableBasedActor.propose_action, hreg] at h
  by_cases hc : u < eps
  · rw [if_pos hc] at h
    exact List.get?_mem h
  · rw [if_neg hc] at h
    cases acts with
    | nil => exact absurd rfl hne
    | cons x t =>
      cases hd : dget a.policy (s, x) with
      | none => simp [greedyLoop, hd] at h
      | some p =>
        simp only [greedyLoop, hd] at h
        rcases greedyLoop_mem a.policy s (x :: t).length t x _ act h with rfl | hm
        · exact List.mem_cons_self _ _
        · exact List.mem_cons_of_mem _ hm

theorem propose_action_succeeds (a : TableBasedActor) (s : Nat) (eps u : ℚ) (r : Nat)
    (acts : List Act) (hreg : dget a.state_actions s = some acts) (hne : acts ≠ [])
    (hp : ∀ x ∈ acts, (dget a.policy (s, x)).isSome) :
    ∃ act, a.propose_action s eps u r = some act := by
  rw [← Option.isSome_iff_exists]
  simp only [TableBasedActor.propose_action, hreg]
  by_cases hc : u < eps
  · rw [if_pos hc]
    have hlen : r % acts.length < acts.length := Nat.mod_lt _ (List.length_pos.mpr hne)
    rw [List.get?_eq_get hlen]
    rfl
  · rw [if_neg hc]
    exact greedyLoop_isSome a.policy s acts.length acts none none hp

theorem sweep_keys (dr df alr clr td : ℚ) :
    ∀ (l : List (Nat × Act)) (ac ac2 : TableBasedActor × TableBasedCritic),
      sweep dr df alr clr td l ac = some ac2 →
      (∀ k, (dget ac2.1.policy k).isSome ↔ (dget ac.1.policy k).isSome) ∧
      (∀ k, (dget ac2.1.eligibilities k).isSome ↔ (dget ac.1.eligibilities k).isSome) ∧
      (∀ s, (dget ac2.2.state_values s).isSome ↔ (dget ac.2.state_values s).isSome) ∧
      (∀ s, (dget ac2.2.eligibilities s).isSome ↔ (dget ac.2.eligibilities s).isSome) ∧
      ac2.1.state_actions = ac.1.state_actions := by
  intro l
  induction l with
  | nil =>
    intro ac ac2 h
    cases h
    exact ⟨fun k => Iff.rfl, fun k => Iff.rfl, fun s => Iff.rfl, fun s => Iff.rfl, rfl⟩
  | cons e rest ih =>
    intro ac ac2 h
    obtain ⟨s, act⟩ := e
    simp only [sweep] at h
    split at h
    · exact Option.noConfusion h
    · rename_i c1 hm1
      split at h
      · exact Option.noConfusion h
      · rename_i c2 hm2
        split at h
        · exact Option.noConfusion h
        · rename_i a1 hm3
          split at h
          · exact Option.noConfusion h
          · rename_i a2 hm4
            obtain ⟨hP, hE, hV, hCE, hSA⟩ := ih _ _ h
            obtain ⟨hV1, hE1⟩ := update_value_function_some _ _ _ _ _ hm1
            obtain ⟨hCE2, hV2⟩ := critic_update_eligibilities_some _ _ _ _ _ hm2
            obtain ⟨hP3, hE3, hSA3⟩ := update_policy_some _ _ _ _ _ _ hm3
            obtain ⟨hE4, hP4, hSA4⟩ := actor_update_eligibilities_some _ _ _ _ _ _ hm4
            refine ⟨?_, ?_, ?_, ?_, ?_⟩
            · intro k
              rw [hP k, hP4]
              exact hP3 k
            · intro k
              rw [hE k, hE4 k, hE3]
            · intro s0
              rw [hV s0, hV2]
              exact hV1 s0
            · intro s0
              rw [hCE s0, hCE2 s0, hE1]
            · rw [hSA, hSA4, hSA3]

theorem sweep_succeeds (dr df alr clr td : ℚ) :
    ∀ (l : List (Nat × Act)) (ac : TableBasedActor × TableBasedCritic),
      (∀ k, (dget ac.1.policy k).isSome ↔ (dget ac.1.eligibilities k).isSome) →
      (∀ s, (dget ac.2.state_values s).isSome ↔ (dget ac.2.eligibilities s).isSome) →
      (∀ e ∈ l, (dget ac.1.policy e).isSome ∧ (dget ac.2.state_values e.1).isSome) →
      ∃ ac2, sweep dr df alr clr td l ac = some ac2 := by
  intro l
  induction l with
  | nil =>
    intro ac _ _ _
    exact ⟨ac, rfl⟩
  | cons e rest ih =>
    intro ac hA hC hreg
    obtain ⟨s, act⟩ := e
    have hPol : (dget ac.1.policy (s, act)).isSome := (hreg _ (List.mem_cons_self _ _)).1
    have hVal : (dget ac.2.state_values s).isSome := (hreg _ (List.mem_cons_self _ _)).2
    have hAE : (dget ac.1.eligibilities (s, act)).isSome := (hA _).mp hPol
    have hCEl : (dget ac.2.eligibilities s).isSome := (hC _).mp hVal
    obtain ⟨c1, hm1⟩ := update_value_function_succeeds ac.2 s clr td hVal hCEl
    obtain ⟨hV1, hE1⟩ := update_value_function_some _ _ _ _ _ hm1
    obtain ⟨c2, hm2⟩ := critic_update_eligibilities_succeeds c1 s dr df
      (by rw [hE1]; exact hCEl)
    obtain ⟨hCE2, hV2⟩ := critic_update_eligibilities_some _ _ _ _ _ hm2
    obtain ⟨a1, hm3⟩ := update_policy_succeeds ac.1 s act alr td hPol hAE
    obtain ⟨hP3, hE3, hSA3⟩ := update_policy_some _ _ _ _ _ _ hm3
    obtain ⟨a2, hm4⟩ := actor_update_eligibilities_succeeds a1 s act dr df
      (by rw [hE3]; exact hAE)
    obtain ⟨hE4, hP4, hSA4⟩ := actor_update_eligibilities_some _ _ _ _ _ _ hm4
    have hA2 : ∀ k, (dget a2.policy k).isSome ↔ (dget a2.eligibilities k).isSome := by
      intro k
      rw [hP4, hE4 k, hE3, hP3 k]
      exact hA k
    have hC2 : ∀ s0, (dget c2.state_values s0).isSome ↔ (dget c2.eligibilities s0).isSome := by
      intro s0
      rw [hV2, hCE2 s0, hE1, hV1 s0]
      exact hC s0
    have hreg2 : ∀ e ∈ rest, (dget a2.policy e).isSome ∧ (dget c2.state_values e.1).isSome := by
      intro e he
      constructor
      · rw [hP4]
        exact (hP3 e).mpr (hreg e (List.mem_cons_of_mem _ he)).1
      · rw [hV2]
        exact (hV1 e.1).mpr (hreg e (List.mem_cons_of_mem _ he)).2
    obtain ⟨ac2, hrest⟩ := ih (a2, c2) hA2 hC2 hreg2
    refine ⟨ac2, ?_⟩
    simp only [sweep, hm1, hm2, hm3, hm4]
    exact hrest

theorem markActor_policy (a : TableBasedActor) (cs : Nat) (ca : Act) :
    (markActor a cs ca).policy = a.policy := rfl

theorem markActor_eligibilities (a : TableBasedActor) (cs : Nat) (ca : Act) :
    (markActor a cs ca).eligibilities = dset a.eligibilities (cs, ca) 1 := rfl

theorem markCritic_state_values (c : TableBasedCritic) (cs : Nat) :
    (markCritic c cs).state_values = c.state_values := rfl

theorem markCritic_eligibilities (c : TableBasedCritic) (cs : Nat) :
    (markCritic c cs).eligibilities = dset c.eligibilities cs 1 := rfl

theorem fitStep_preserves {σ : Type} (cfg : ACM) (d : Domain σ) (rng : Rng)
    (hd : d.WellBehaved) (st : FitState σ) (ep : List (Nat × Act)) (cs : Nat) (ca : Act)
    (hinv : StepInv st ep cs ca) :
    ∃ out, cfg.fitStep d rng st ep cs ca = some out ∧
      StepInv out.1 out.2.1 out.2.2.1 out.2.2.2 := by
  obtain ⟨⟨hA, hC⟩, hreg, hcurA, hcurC⟩ := hinv
  have hne : (d.generate_child_state st.dom ca).1.actions ≠ [] := hd.2 st.dom ca
  obtain ⟨dv, hcr1⟩ := criticAddRng_fst st.critic
    (d.generate_child_state st.dom ca).1.state rng st.uctr
  have hregs : dget (st.actor.add_state (d.generate_child_state st.dom ca).1.state
      (d.generate_child_state st.dom ca).1.actions).state_actions
      (d.generate_child_state st.dom ca).1.state =
      some (d.generate_child_state st.dom ca).1.actions := by
    rw [add_state_eq]
    exact dget_dset_self _ _ _
  have hcov : ∀ x ∈ (d.generate_child_state st.dom ca).1.actions,
      (dget (st.actor.add_state (d.generate_child_state st.dom ca).1.state
        (d.generate_child_state st.dom ca).1.actions).policy
        ((d.generate_child_state st.dom ca).1.state, x)).isSome := by
    intro x hx
    rw [add_state_eq]
    exact isSome_dget_addKeys_mem _ _ x hx _
  obtain ⟨sa, hsa⟩ := propose_action_succeeds _ _ st.epsilon
    (rng.uniform (criticAddRng st.critic (d.generate_child_state st.dom ca).1.state rng st.uctr).2)
    (rng.choice st.cctr) _ hregs hne hcov
  have hsamem : sa ∈ (d.generate_child_state st.dom ca).1.actions :=
    propose_action_mem _ _ _ _ _ _ sa hregs hne hsa
  have hpr : proposeWithRng (st.actor.add_state (d.generate_child_state st.dom ca).1.state
      (d.generate_child_state st.dom ca).1.actions)
      (d.generate_child_state st.dom ca).1.state st.epsilon rng
      (criticAddRng st.critic (d.generate_child_state st.dom ca).1.state rng st.uctr).2
      st.cctr =
      some (sa,
        (criticAddRng st.critic (d.generate_child_state st.dom ca).1.state rng st.uctr).2 + 1,
        if rng.uniform (criticAddRng st.critic (d.generate_child_state st.dom ca).1.state
            rng st.uctr).2 < st.epsilon then st.cctr + 1 else st.cctr) := by
    simp only [proposeWithRng, hsa]
  have hA1 : ∀ k, (dget (st.actor.add_state (d.generate_child_state st.dom ca).1.state
      (d.generate_child_state st.dom ca).1.actions).policy k).isSome ↔
      (dget (st.actor.add_state (d.generate_child_state st.dom ca).1.state
        (d.generate_child_state st.dom ca).1.actions).eligibilities k).isSome :=
    add_state_aligned st.actor _ _ hA
  have hPmono : ∀ k, (dget st.actor.policy k).isSome →
      (dget (st.actor.add_state (d.generate_child_state st.dom ca).1.state
        (d.generate_child_state st.dom ca).1.actions).policy k).isSome := by
    intro k hk
    rw [add_state_eq]
    exact isSome_dget_addKeys_mono _ _ _ k hk
  have hC1 : ∀ k, (dget (criticAddRng st.critic
      (d.generate_child_state st.dom ca).1.state rng st.uctr).1.state_values k).isSome ↔
      (dget (criticAddRng st.critic
        (d.generate_child_state st.dom ca).1.state rng st.uctr).1.eligibilities k).isSome := by
    intro k
    rw [hcr1]
    exact critic_add_state_aligned st.critic _ dv hC k
  have hVmono : ∀ k, (dget st.critic.state_values k).isSome →
      (dget (criticAddRng st.critic
        (d.generate_child_state st.dom ca).1.state rng st.uctr).1.state_values k).isSome := by
    intro k hk
    rw [hcr1]
    show (dget (dinsIfAbsent st.critic.state_values _ dv) k).isSome
    rw [isSome_dget_dinsIfAbsent_iff]
    exact Or.inr hk
  have hssv : (dget (criticAddRng st.critic
      (d.generate_child_state st.dom ca).1.state rng st.uctr).1.state_values
      (d.generate_child_state st.dom ca).1.state).isSome := by
    rw [hcr1]
    exact isSome_dget_dinsIfAbsent_self _ _ _
  obtain ⟨td, htd⟩ := compute_td_error_succeeds
    (criticAddRng st.critic (d.generate_child_state st.dom ca).1.state rng st.uctr).1
    cs (d.generate_child_state st.dom ca).1.state
    (d.generate_child_state st.dom ca).1.reward cfg.discount_rate
    (hVmono cs hcurC) hssv
  have hcurA1 : (dget (st.actor.add_state (d.generate_child_state st.dom ca).1.state
      (d.generate_child_state st.dom ca).1.actions).policy (cs, ca)).isSome := hPmono _ hcurA
  have hA2 : ∀ k, (dget (markActor (st.actor.add_state
      (d.generate_child_state st.dom ca).1.state
      (d.generate_child_state st.dom ca).1.actions) cs ca).policy k).isSome ↔
      (dget (markActor (st.actor.add_state (d.generate_child_state st.dom ca).1.state
        (d.generate_child_state st.dom ca).1.actions) cs ca).eligibilities k).isSome := by
    intro k
    rw [markActor_policy, markActor_eligibilities,
      isSome_dget_dset_of_mem _ _ _ _ ((hA1 _).mp hcurA1)]
    exact hA1 k
  have hC2 : ∀ k, (dget (markCritic (criticAddRng st.critic
      (d.generate_child_state st.dom ca).1.state rng st.uctr).1 cs).state_values k).isSome ↔
      (dget (markCritic (criticAddRng st.critic
        (d.generate_child_state st.dom ca).1.state rng st.uctr).1 cs).eligibilities k).isSome := by
    intro k
    rw [markCritic_state_values, markCritic_eligibilities,
      isSome_dget_dset_of_mem _ _ _ _ ((hC1 _).mp (hVmono cs hcurC))]
    exact hC1 k
  have hreg2 : ∀ e ∈ ep ++ [(cs, ca)],
      (dget (markActor (st.actor.add_state (d.generate_child_state st.dom ca).1.state
        (d.generate_child_state st.dom ca).1.actions) cs ca).policy e).isSome ∧
      (dget (markCritic (criticAddRng st.critic
        (d.generate_child_state st.dom ca).1.state rng st.uctr).1 cs).state_values e.1).isSome := by
    intro e he
    rw [markActor_policy, markCritic_state_values]
    rcases List.mem_append.mp he with hmem | hmem
    · exact ⟨hPmono _ (hreg e hmem).1, hVmono _ (hreg e hmem).2⟩
    · rw [List.mem_singleton.mp hmem]
      exact ⟨hcurA1, hVmono _ hcurC⟩
  obtain ⟨ac2, hsweep⟩ := sweep_succeeds cfg.discount_rate cfg.decay_factor cfg.actor_lr
    cfg.critic_lr td (ep ++ [(cs, ca)])
    (markActor (st.actor.add_state (d.generate_child_state st.dom ca).1.state
      (d.generate_child_state st.dom ca).1.actions) cs ca,
     markCritic (criticAddRng st.critic
      (d.generate_child_state st.dom ca).1.state rng st.uctr).1 cs) hA2 hC2 hreg2
  obtain ⟨hkP, hkE, hkV, hkCE, hkSA⟩ := sweep_keys _ _ _ _ _ _ _ _ hsweep
  refine ⟨({ actor := ac2.1, critic := ac2.2, epsilon := st.epsilon,
             dom := (d.generate_child_state st.dom ca).2,
             uctr := (criticAddRng st.critic
               (d.generate_child_state st.dom ca).1.state rng st.uctr).2 + 1,
             cctr := if rng.uniform (criticAddRng st.critic
                 (d.generate_child_state st.dom ca).1.state rng st.uctr).2 < st.epsilon
               then st.cctr + 1 else st.cctr },
           ep ++ [(cs, ca)], (d.generate_child_state st.dom ca).1.state, sa), ?_, ?_⟩
  · simp only [ACM.fitStep, hpr, htd, hsweep]
  · refine ⟨⟨?_, ?_⟩, ?_, ?_, ?_⟩
    · intro k
      rw [hkP k, hkE k]
      exact hA2 k
    · intro k
      rw [hkV k, hkCE k]
      exact hC2 k
    · intro e he
      exact ⟨(hkP e).mpr (hreg2 e he).1, (hkV e.1).mpr (hreg2 e he).2⟩
    · refine (hkP _).mpr ?_
      rw [markActor_policy, add_state_eq]
      exact isSome_dget_addKeys_mem _ _ sa hsamem _
    · refine (hkV _).mpr ?_
      rw [markCritic_state_values]
      exact hssv

theorem runSteps_preserves {σ : Type} (cfg : ACM) (d : Domain σ) (rng : Rng)
    (hd : d.WellBehaved) :
    ∀ (n : Nat) (st : FitState σ) (ep : List (Nat × Act)) (cs : Nat) (ca : Act),
      StepInv st ep cs ca →
      ∃ st2, ACM.runSteps cfg d rng n st ep cs ca = some st2 ∧ KeysAligned st2 := by
  intro n
  induction n with
  | zero =>
    intro st ep cs ca hinv
    exact ⟨st, rfl, hinv.1⟩
  | succ n ih =>
    intro st ep cs ca hinv
    cases ht : d.is_current_state_terminal st.dom with
    | true => exact ⟨st, by simp [ACM.runSteps, ht], hinv.1⟩
    | false =>
      obtain ⟨out, hstep, hinv2⟩ := fitStep_preserves cfg d rng hd st ep cs ca hinv
      obtain ⟨st2, hrest, hal⟩ := ih out.1 out.2.1 out.2.2.1 out.2.2.2 hinv2
      refine ⟨st2, ?_, hal⟩
      simp only [ACM.runSteps, ht, hstep, Bool.false_eq_true, if_false]
      exact hrest

theorem runEpisode_preserves {σ : Type} (cfg : ACM) (d : Domain σ) (rng : Rng)
    (hd : d.WellBehaved) (st : FitState σ) (hal : KeysAligned st) :
    ∃ st2, cfg.runEpisode d rng st = some st2 ∧ KeysAligned st2 := by
  have hne : (d.produce_initial_state st.dom).1.2 ≠ [] := hd.1 st.dom
  have halA0 : ∀ k, (dget st.actor.reset_eligibilities.policy k).isSome ↔
      (dget st.actor.reset_eligibilities.eligibilities k).isSome := by
    intro k
    show (dget st.actor.policy k).isSome = true ↔
      (dget (dzero st.actor.eligibilities) k).isSome = true
    rw [isSome_dget_dzero]
    exact hal.1 k
  have halC0 : ∀ k, (dget st.critic.reset_eligibilities.state_values k).isSome ↔
      (dget st.critic.reset_eligibilities.eligibilities k).isSome := by
    intro k
    show (dget st.critic.state_values k).isSome = true ↔
      (dget (dzero st.critic.eligibilities) k).isSome = true
    rw [isSome_dget_dzero]
    exact hal.2 k
  obtain ⟨dv, hcr1⟩ := criticAddRng_fst st.critic.reset_eligibilities
    (d.produce_initial_state st.dom).1.1 rng st.uctr
  have hregs : dget (st.actor.reset_eligibilities.add_state
      (d.produce_initial_state st.dom).1.1
      (d.produce_initial_state st.dom).1.2).state_actions
      (d.produce_initial_state st.dom).1.1 =
      some (d.produce_initial_state st.dom).1.2 := by
    rw [add_state_eq]
    exact dget_dset_self _ _ _
  have hcov : ∀ x ∈ (d.produce_initial_state st.dom).1.2,
      (dget (st.actor.reset_eligibilities.add_state (d.produce_initial_state st.dom).1.1
        (d.produce_initial_state st.dom).1.2).policy
        ((d.produce_initial_state st.dom).1.1, x)).isSome := by
    intro x hx
    rw [add_state_eq]
    exact isSome_dget_addKeys_mem _ _ x hx _
  obtain ⟨sa, hsa⟩ := propose_action_succeeds _ _ st.epsilon
    (rng.uniform (criticAddRng st.critic.reset_eligibilities
      (d.produce_initial_state st.dom).1.1 rng st.uctr).2)
    (rng.choice st.cctr) _ hregs hne hcov
  have hsamem : sa ∈ (d.produce_initial_state st.dom).1.2 :=
    propose_action_mem _ _ _ _ _ _ sa hregs hne hsa
  have hpr : proposeWithRng (st.actor.reset_eligibilities.add_state
      (d.produce_initial_state st.dom).1.1 (d.produce_initial_state st.dom).1.2)
      (d.produce_initial_state st.dom).1.1 st.epsilon rng
      (criticAddRng st.critic.reset_eligibilities
        (d.produce_initial_state st.dom).1.1 rng st.uctr).2 st.cctr =
      some (sa,
        (criticAddRng st.critic.reset_eligibilities
          (d.produce_initial_state st.dom).1.1 rng st.uctr).2 + 1,
        if rng.uniform (criticAddRng st.critic.reset_eligibilities
            (d.produce_initial_state st.dom).1.1 rng st.uctr).2 < st.epsilon
          then st.cctr + 1 else st.cctr) := by
    simp only [proposeWithRng, hsa]
  have hinv1 : StepInv
      ({ actor := st.actor.reset_eligibilities.add_state
           (d.produce_initial_state st.dom).1.1 (d.produce_initial_state st.dom).1.2,
         critic := (criticAddRng st.critic.reset_eligibilities
           (d.produce_initial_state st.dom).1.1 rng st.uctr).1,
         epsilon := st.epsilon, dom := (d.produce_initial_state st.dom).2,
         uctr := (criticAddRng st.critic.reset_eligibilities
           (d.produce_initial_state st.dom).1.1 rng st.uctr).2 + 1,
         cctr := if rng.uniform (criticAddRng st.critic.reset_eligibilities
             (d.produce_initial_state st.dom).1.1 rng st.uctr).2 < st.epsilon
           then st.cctr + 1 else st.cctr } : FitState σ)
      [] (d.produce_initial_state st.dom).1.1 sa := by
    refine ⟨⟨?_, ?_⟩, ?_, ?_, ?_⟩
    · intro k
      exact add_state_aligned st.actor.reset_eligibilities _ _ halA0 k
    · intro k
      show (dget (criticAddRng st.critic.reset_eligibilities
          (d.produce_initial_state st.dom).1.1 rng st.uctr).1.state_values k).isSome = true ↔
        (dget (criticAddRng st.critic.reset_eligibilities
          (d.produce_initial_state st.dom).1.1 rng st.uctr).1.eligibilities k).isSome = true
      rw [hcr1]
      exact critic_add_state_aligned st.critic.reset_eligibilities _ dv halC0 k
    · intro e he
      cases he
    · show (dget (st.actor.reset_eligibilities.add_state
        (d.produce_initial_state st.dom).1.1
        (d.produce_initial_state st.dom).1.2).policy
        ((d.produce_initial_state st.dom).1.1, sa)).isSome = true
      rw [add_state_eq]
      exact isSome_dget_addKeys_mem _ _ sa hsamem _
    · show (dget (criticAddRng st.critic.reset_eligibilities
        (d.produce_initial_state st.dom).1.1 rng st.uctr).1.state_values
        (d.produce_initial_state st.dom).1.1).isSome = true
      rw [hcr1]
      exact isSome_dget_dinsIfAbsent_self _ _ _
  obtain ⟨st3, hsteps, hal3⟩ := runSteps_preserves cfg d rng hd cfg.steps _ _ _ _ hinv1
  refine ⟨{ st3 with epsilon := st3.epsilon * cfg.epsilon_decay }, ?_, ?_⟩
  · simp only [ACM.runEpisode, hpr, hsteps]
  · exact hal3

theorem runEpisodes_preserves {σ : Type} (cfg : ACM) (d : Domain σ) (rng : Rng)
    (hd : d.WellBehaved) :
    ∀ (n : Nat) (st : FitState σ), KeysAligned st →
      ∃ st2, cfg.runEpisodes d rng n st = some st2 ∧ KeysAligned st2 := by
  intro n
  induction n with
  | zero =>
    intro st h
    exact ⟨st, rfl, h⟩
  | succ n ih =>
    intro st h
    obtain ⟨st1, h1, hal1⟩ := runEpisode_preserves cfg d rng hd st h
    obtain ⟨st2, h2, hal2⟩ := ih st1 hal1
    refine ⟨st2, ?_, hal2⟩
    simp only [ACM.runEpisodes, h1]
    exact h2

/-- Claim C5: under the domain contract (non-empty action lists), every
state reachable by the training loop keeps a state in the critic's trace
table exactly when it is in its value table, and a state-action pair in the
actor's trace table exactly when it is in its policy table; moreover every
update and lookup is preceded by the corresponding add_state call, so no
operation ever fails: a full fit run completes, each step of the loop
preserves the registration invariant, and each episode maps an aligned
state to an aligned state. -/
theorem registration_invariant {σ : Type} (cfg : ACM) (d : Domain σ) (rng : Rng) (s0 : σ)
    (hd : d.WellBehaved) :
    (∃ st2, cfg.fit d rng s0 = some st2 ∧ KeysAligned st2) ∧
    (∀ (st : FitState σ) (ep : List (Nat × Act)) (cs : Nat) (ca : Act),
      StepInv st ep cs ca →
      ∃ out, cfg.fitStep d rng st ep cs ca = some out ∧
        StepInv out.1 out.2.1 out.2.2.1 out.2.2.2) ∧
    (∀ st : FitState σ, KeysAligned st →
      ∃ st2, cfg.runEpisode d rng st = some st2 ∧ KeysAligned st2) := by
  refine ⟨?_, fun st ep cs ca hinv => fitStep_preserves cfg d rng hd st ep cs ca hinv,
    fun st hal => runEpisode_preserves cfg d rng hd st hal⟩
  have hal0 : KeysAligned ({ actor := TableBasedActor.empty,
                             critic := TableBasedCritic.empty, epsilon := cfg.epsilon,
                             dom := s0, uctr := 0, cctr := 0 } : FitState σ) := by
    constructor
    · intro k
      simp [TableBasedActor.empty, dget]
    · intro s
      simp [TableBasedCritic.empty, dget]
  exact runEpisodes_preserves cfg d rng hd cfg.max_episodes _ hal0

/-- Witness for C5 on the one-state domain, which satisfies the
domain contract. -/
theorem registration_invariant_witness :
    (∃ st2, cfgW.fit domW rngW () = some st2 ∧ KeysAligned st2) ∧
    (∀ (st : FitState Unit) (ep : List (Nat × Act)) (cs : Nat) (ca : Act),
      StepInv st ep cs ca →
      ∃ out, cfgW.fitStep domW rngW st ep cs ca = some out ∧
        StepInv out.1 out.2.1 out.2.2.1 out.2.2.2) ∧
    (∀ st : FitState Unit, KeysAligned st →
      ∃ st2, cfgW.runEpisode domW rngW st = some st2 ∧ KeysAligned st2) :=
  registration_invariant cfgW domW rngW ()
    ⟨fun _ => List.cons_ne_nil _ _, fun _ _ => List.cons_ne_nil _ _⟩
